/-
  Verification of the apiregister-gen model-building pipeline
  (cmd/apiregister-gen/generators/parser.go).

  The Go source is shallowly embedded: each Go function relevant to the
  verified properties is translated into an executable Lean definition.
  Strings are Lean strings (in this toolchain a `String` is a packed
  `List Char`; all characters handled by the pipeline are ASCII, so
  byte-level Go string indexing coincides with character indexing).
  Functions that call `log.Fatalf` / `panic` are embedded as `Except`
  values carrying a structured description of the fatal diagnostic.
-/
import Mathlib

namespace ApiregisterGen

/-! ### Go standard-library string helpers

Translations of the `strings` / `path` / `filepath` functions used by
parser.go.  `filepath` coincides with `path` on unix separators, which is
the only setting the generator runs in (package paths use `/`). -/

/-- `listHasPre pat l` is true when `pat` is a prefix of `l`
(Go `strings.HasPrefix` on rune lists). -/
def listHasPre : List Char → List Char → Bool
  | [], _ => true
  | _ :: _, [] => false
  | p :: ps, c :: cs => p == c && listHasPre ps cs

/-- Go `strings.Replace(s, old, new, -1)` on rune lists: replace every
non-overlapping occurrence of `pat`, scanning left to right.  The `Nat`
argument is fuel bounding the scan by the input length, keeping the
recursion structural (each step consumes at least one rune, so the fuel
never runs out).  All call sites in parser.go pass a non-empty pattern
(it always ends in `/`); Go's insertion semantics for an empty pattern is
not exercised and an empty pattern leaves the input unchanged here. -/
def replListAllF (pat rep : List Char) : Nat → List Char → List Char
  | _, [] => []
  | 0, l => l
  | fuel + 1, c :: cs =>
    if pat ≠ [] ∧ listHasPre pat (c :: cs) then
      rep ++ replListAllF pat rep fuel ((c :: cs).drop pat.length)
    else
      c :: replListAllF pat rep fuel cs

/-- `replListAllF` at its intended fuel. -/
def replListAll (pat rep l : List Char) : List Char :=
  replListAllF pat rep l.length l

/-- Go `strings.Replace(s, old, new, 1)` on rune lists: replace only the
first occurrence of `pat` (non-empty at every call site). -/
def replListOne (pat rep : List Char) : List Char → List Char
  | [] => []
  | c :: cs =>
    if pat ≠ [] ∧ listHasPre pat (c :: cs) then
      rep ++ (c :: cs).drop pat.length
    else
      c :: replListOne pat rep cs

/-- Go `strings.Replace(s, old, new, -1)`. -/
def goReplaceAll (s old new : String) : String :=
  ⟨replListAll old.data new.data s.data⟩

/-- Go `strings.Replace(s, old, new, 1)`. -/
def goReplaceOne (s old new : String) : String :=
  ⟨replListOne old.data new.data s.data⟩

/-- `subListOf pat l` is true when `pat` occurs as a contiguous sublist of
`l` (Go `strings.Contains` on rune lists). -/
def subListOf (pat : List Char) : List Char → Bool
  | [] => pat.isEmpty
  | c :: rest => listHasPre pat (c :: rest) || subListOf pat rest

/-- Go `strings.Contains(s, sub)`. -/
def goContainsSub (s sub : String) : Bool :=
  subListOf sub.data s.data

/-- Go `strings.Split` on rune lists (the separator is non-empty at every
call site: `","`, `"="`, `"."`).  The `Nat` argument is fuel bounding the
scan by the input length, keeping the recursion structural. -/
def splitListF (sep : List Char) : Nat → List Char → List (List Char)
  | _, [] => [[]]
  | 0, l => [l]
  | fuel + 1, c :: cs =>
    if sep ≠ [] ∧ listHasPre sep (c :: cs) then
      [] :: splitListF sep fuel ((c :: cs).drop sep.length)
    else
      match splitListF sep fuel cs with
      | [] => [[c]]
      | h :: t => (c :: h) :: t

/-- Go `strings.Split(s, sep)`. -/
def goSplit (s sep : String) : List String :=
  (splitListF sep.data s.data.length s.data).map (fun l => ⟨l⟩)

/-- Index of the last occurrence of `c` in the list, if any
(Go `strings.LastIndex(s, ".")` specialised to one-rune needles). -/
def listLastIdx (c : Char) : List Char → Option Nat
  | [] => none
  | a :: rest =>
    match listLastIdx c rest with
    | some i => some (i + 1)
    | none => if a = c then some 0 else none

/-- Go `strings.TrimSuffix(s, suffix)`. -/
def goTrimSuffix (s suffix : String) : String :=
  if suffix.data.isSuffixOf s.data then ⟨s.data.take (s.data.length - suffix.data.length)⟩ else s

/-- Strip trailing `/` runes (first phase of Go `path.Base`). -/
def dropTrailSlash (l : List Char) : List Char :=
  (l.reverse.dropWhile (· == '/')).reverse

/-- The part of `l` after its last `/`, or all of `l` when it has none. -/
def afterLastSlash (l : List Char) : List Char :=
  (l.reverse.takeWhile (· != '/')).reverse

/-- Go `path.Base` (= `filepath.Base` on unix paths): empty path gives
`"."`, trailing slashes are stripped, then everything up to the final
slash is removed; an all-slash path gives `"/"`. -/
def goPathBase (p : String) : String :=
  if p.data = [] then "."
  else
    let l := dropTrailSlash p.data
    let l := afterLastSlash l
    if l = [] then "/" else ⟨l⟩

/-- Go `filepath.Base`; identical to `path.Base` for slash-separated
package paths. -/
def goFilepathBase (p : String) : String := goPathBase p

/-- Backtracking step of Go `path.Clean`'s `..` handling: starting from
write position `w`, move left while above `dotdot` and not on a `/`. -/
def shrinkGo (out : List Char) (dotdot : Nat) : Nat → Nat
  | 0 => 0
  | w + 1 =>
    if w + 1 ≤ dotdot then w + 1
    else if out.getD (w + 1) ' ' = '/' then w + 1
    else shrinkGo out dotdot w

/-- Truncate the output buffer as Go `path.Clean` does on `..`:
`out.w--; for out.w > dotdot && out.index(out.w) != '/' { out.w-- }`. -/
def shrinkOut (out : List Char) (dotdot : Nat) : List Char :=
  out.take (shrinkGo out dotdot (out.length - 1))

/-- Main loop of Go `path.Clean`, processing the remaining input with
output buffer `out`; `rooted` records whether the path began with `/` and
`dotdot` bounds how far `..` may backtrack.  The `Nat` argument is fuel
bounding the scan by the input length (every step consumes at least one
rune), keeping the recursion structural. -/
def goCleanLoopF (rooted : Bool) : Nat → List Char → List Char → Nat → List Char
  | _, [], out, _ => out
  | 0, _, out, _ => out
  | fuel + 1, c :: rest, out, dotdot =>
    if c = '/' then
      goCleanLoopF rooted fuel rest out dotdot
    else if c = '.' ∧ (rest = [] ∨ rest.head? = some '/') then
      goCleanLoopF rooted fuel rest out dotdot
    else if c = '.' ∧ rest.head? = some '.' ∧
        (rest.tail.head? = none ∨ rest.tail.head? = some '/') then
      if dotdot < out.length then
        goCleanLoopF rooted fuel rest.tail (shrinkOut out dotdot) dotdot
      else if rooted = false then
        let out2 := out ++ (if 0 < out.length then ['/'] else []) ++ ['.', '.']
        goCleanLoopF rooted fuel rest.tail out2 out2.length
      else
        goCleanLoopF rooted fuel rest.tail out dotdot
    else
      let sep : List Char :=
        if (rooted = true ∧ out.length ≠ 1) ∨ (rooted = false ∧ out.length ≠ 0) then ['/'] else []
      goCleanLoopF rooted fuel ((c :: rest).dropWhile (· != '/'))
        (out ++ sep ++ (c :: rest).takeWhile (· != '/')) dotdot

/-- Go `path.Clean` (lexical path normalisation). -/
def goPathClean (p : String) : String :=
  if p.data = [] then "."
  else
    let rooted := p.data.head? = some '/'
    let startOut : List Char := if rooted then ['/'] else []
    let s := if rooted then p.data.tail else p.data
    let dotdot := if rooted then 1 else 0
    let out := goCleanLoopF rooted s.length s startOut dotdot
    if out = [] then "." else ⟨out⟩

/-- Go `path.Dir` (= `filepath.Dir` on unix paths): everything up to and
including the final slash, then `Clean`; a slash-free path gives `"."`. -/
def goPathDir (p : String) : String :=
  goPathClean ⟨(p.data.reverse.dropWhile (· != '/')).reverse⟩

/-! ### Data model

Embeddings of the structs of parser.go.  The gengo `types.Type` graph is
represented by a flat descriptor (`TypeDesc`) carrying the accessors the
pipeline reads (`Name.Name`, `Name.Package`, `String()`, `Elem`,
`IsPrimitive()`), plus the externally supplied classifier value
`GetGroup`; a full declaration (`Decl`) additionally carries comment
lines, members, and the results of the external classifier predicates
and comment accessors (`IsAPIResource`, `GetResourceTag`, ...), which the
spec scopes out as pure functions over a declaration. -/

/-- One level of indirection of a gengo type (`Type.Elem` of a pointer,
slice or map): only its `Name.Package` and `Name.Name` are read. -/
structure ElemDesc where
  pkg : String
  name : String
  deriving DecidableEq, Repr

/-- Descriptor of a gengo `types.Type` as read by parser.go. -/
structure TypeDesc where
  /-- `Type.Name.Name` — the bare type name. -/
  name : String
  /-- `Type.Name.Package` — the package path. -/
  pkg : String
  /-- `Type.String()` — the printed fully-qualified form. -/
  str : String
  /-- `Type.Elem`, present for pointers, maps and slices. -/
  elem : Option ElemDesc
  /-- `Type.IsPrimitive()`. -/
  primitive : Bool
  /-- `GetGroup(t)` — external classifier, carried on the descriptor. -/
  group : String
  deriving DecidableEq, Repr

/-- A struct member (`types.Member`). -/
structure Member where
  name : String
  embedded : Bool
  type : TypeDesc
  deriving DecidableEq, Repr

/-- A type declaration from the universe, together with the values of the
external classifier predicates and comment-tag accessors on it. -/
structure Decl where
  self : TypeDesc
  commentLines : List String
  members : List Member
  /-- `IsAPIResource(c)` — external classifier. -/
  isAPIResource : Bool
  /-- `IsAPISubresource(c)` — external classifier. -/
  isAPISubresource : Bool
  /-- `HasSubresource(c)` — external classifier. -/
  hasSubresource : Bool
  /-- `IsNonNamespaced(c)` — external classifier. -/
  isNonNamespaced : Bool
  /-- `GetGroup(c)` — external accessor. -/
  group : String
  /-- `GetVersion(c, group)` — external accessor. -/
  version : String
  /-- `GetKind(c, group)` — external accessor. -/
  kind : String
  /-- `b.GetResourceTag(c)` — the raw `+resource=` tag body. -/
  resourceTag : String
  /-- `b.GetSubresourceTags(c)` — the raw `+subresource=` tag bodies. -/
  subresourceTags : List String
  deriving DecidableEq, Repr

/-- `ResourceTags` — tags in a `+resource=` comment. -/
structure ResourceTags where
  resource : String
  rest : String
  strategy : String
  deriving DecidableEq, Repr

/-- `schema.GroupVersionKind`. -/
structure GroupVersionKind where
  group : String
  version : String
  kind : String
  deriving DecidableEq, Repr

/-- `ControllerTags` — tags in a `+controller=` comment. -/
structure ControllerTags where
  gvk : GroupVersionKind
  resource : String
  deriving DecidableEq, Repr

/-- `SubresourceTags` — tags in a `+subresource=` comment. -/
structure SubresourceTags where
  path : String
  kind : String
  requestKind : String
  rest : String
  deriving DecidableEq, Repr

/-- `APISubresource` (the `RequestType`/`RESTType` fields of the Go
struct are never assigned by the embedded code and are omitted). -/
structure APISubresource where
  domain : String
  group : String
  version : String
  kind : String
  resource : String
  request : String
  rest : String
  path : String
  importPackage : String
  deriving DecidableEq, Repr

/-- `APIResource`; `Subresources` (a Go map keyed by path) is embedded as
an association list in insertion order. -/
structure APIResource where
  domain : String
  group : String
  version : String
  kind : String
  resource : String
  rest : String
  subresources : List (String × APISubresource)
  type : TypeDesc
  strategy : String
  statusStrategy : String
  nonNamespaced : Bool
  deriving DecidableEq, Repr

/-- `Field` of a flattened struct. -/
structure Field where
  name : String
  versionedPackage : String
  unversionedImport : String
  unversionedType : String
  deriving DecidableEq, Repr

/-- `Struct` — generator-facing flattening of a type. -/
structure Struct where
  name : String
  genClient : Bool
  genDeepCopy : Bool
  genUnversioned : Bool
  fields : List Field
  deriving DecidableEq, Repr

/-- The fatal diagnostics (`log.Fatalf` / `panic`) the embedded code can
raise, with the data interpolated into each message. -/
inductive FatalErr where
  /-- `// +resource: tags must be key value pairs. ... Got string: [raw]` -/
  | resourceTagKV (raw : String)
  /-- `// +controller: tags must be key value pairs. ... Got string: [raw]` -/
  | controllerTagKV (raw : String)
  /-- `// +subresource: tags must be key value pairs. ... Got string: [raw]` -/
  | subresourceTagKV (raw : String)
  /-- `Multiple subresources registered for path %s: %v %v` — the colliding
  path, the previously registered descriptor, and the offending raw
  directive string. -/
  | duplicatePath (path : String) (existing : APISubresource) (directive : String)
  deriving DecidableEq, Repr

/-! ### Tag grammar parsers -/

/-- Element loop of `ParseResourceTag`: process the comma-separated
elements left to right, updating the accumulated record per the `switch`
on the key; an element that does not split on `=` into exactly two parts
is the fatal `tags must be key value pairs` error carrying the raw tag. -/
def ParseResourceElems (tag : String) (acc : ResourceTags) : List String → Except FatalErr ResourceTags
  | [] => .ok acc
  | elem :: rest =>
    match goSplit elem "=" with
    | [k, value] =>
      let acc :=
        if k = "rest" then { acc with rest := value }
        else if k = "path" then { acc with resource := value }
        else if k = "strategy" then { acc with strategy := value }
        else acc
      ParseResourceElems tag acc rest
    | _ => .error (.resourceTagKV tag)

/-- `ParseResourceTag` — parses a `+resource=` comment body. -/
def ParseResourceTag (tag : String) : Except FatalErr ResourceTags :=
  ParseResourceElems tag { resource := "", rest := "", strategy := "" } (goSplit tag ",")

/-- Element loop of `ParseControllerTag`. -/
def ParseControllerElems (tag : String) (acc : ControllerTags) : List String → Except FatalErr ControllerTags
  | [] => .ok acc
  | elem :: rest =>
    match goSplit elem "=" with
    | [k, value] =>
      let acc :=
        if k = "group" then { acc with gvk := { acc.gvk with group := value } }
        else if k = "version" then { acc with gvk := { acc.gvk with version := value } }
        else if k = "kind" then { acc with gvk := { acc.gvk with kind := value } }
        else if k = "resource" then { acc with resource := value }
        else acc
      ParseControllerElems tag acc rest
    | _ => .error (.controllerTagKV tag)

/-- `ParseControllerTag` — parses a `+controller=` comment body. -/
def ParseControllerTag (tag : String) : Except FatalErr ControllerTags :=
  ParseControllerElems tag { gvk := { group := "", version := "", kind := "" }, resource := "" }
    (goSplit tag ",")

/-- Element loop of `ParseSubresourceTag`; the `path` value has every
occurrence of the parent resource's plural name followed by `/` stripped
(`strings.Replace(value, c.Resource+"/", "", -1)`). -/
def ParseSubElems (c : APIResource) (tag : String) (acc : SubresourceTags) : List String → Except FatalErr SubresourceTags
  | [] => .ok acc
  | elem :: rest =>
    match goSplit elem "=" with
    | [k, value] =>
      let acc :=
        if k = "request" then { acc with requestKind := value }
        else if k = "rest" then { acc with rest := value }
        else if k = "path" then { acc with path := goReplaceAll value (c.resource ++ "/") "" }
        else acc
      ParseSubElems c tag acc rest
    | _ => .error (.subresourceTagKV tag)

/-- `ParseSubresourceTag` — parses a `+subresource=` comment body in the
context of its parent resource `c`. -/
def ParseSubresourceTag (c : APIResource) (tag : String) : Except FatalErr SubresourceTags :=
  ParseSubElems c tag { path := "", kind := "", requestKind := "", rest := "" } (goSplit tag ",")

/-! ### Subresource resolver -/

/-- `IsInPackage` — true when the subresource request type has no package
qualifier (`!strings.Contains(tags.RequestKind, ".")`). -/
def IsInPackage (tags : SubresourceTags) : Bool :=
  !(goContainsSub tags.requestKind ".")

/-- `GetNameAndImport` — split the request kind at its last `.` into
an import path and a bare struct name, and rewrite the request kind as
`<filepath.Base importPath>.<bareName>`.  The `none` branch is
unreachable: the call site is guarded by `IsInPackage`. -/
def GetNameAndImport (tags : SubresourceTags) : String × String :=
  match listLastIdx '.' tags.requestKind.data with
  | none => (tags.requestKind, "")
  | some last =>
    let importPackage : String := ⟨tags.requestKind.data.take last⟩
    let requestKind : String := ⟨tags.requestKind.data.drop (last + 1)⟩
    let pkg := goFilepathBase importPackage
    (pkg ++ "." ++ requestKind, importPackage)

/-- Body of the `GetSubresources` loop for one parsed directive: build the
`APISubresource` literal and resolve an out-of-package request type. -/
def MakeSubresource (dom : String) (c : APIResource) (tags : SubresourceTags) : APISubresource :=
  let sr : APISubresource := {
    kind := tags.kind, request := tags.requestKind, path := tags.path, rest := tags.rest,
    domain := dom, version := c.version, resource := c.resource, group := c.group,
    importPackage := "" }
  if !(IsInPackage tags) then
    let ni := GetNameAndImport tags
    { sr with request := ni.1, importPackage := ni.2 }
  else sr

/-- Lookup in the subresource map (a Go map keyed by path, embedded as an
association list in insertion order). -/
def lookupPath (r : List (String × APISubresource)) (p : String) : Option APISubresource :=
  match r with
  | [] => none
  | (k, v) :: rest => if k = p then some v else lookupPath rest p

/-- Loop of `GetSubresources` over the raw `+subresource=` directive
strings: parse each, build its descriptor, and fail fatally when a
descriptor's resolved path is already registered — the error carries the
colliding path, the previously stored descriptor (`%v`), and the raw
offending directive string. -/
def GetSubresourcesLoop (dom : String) (c : APIResource) (r : List (String × APISubresource)) :
    List String → Except FatalErr (List (String × APISubresource))
  | [] => .ok r
  | subresource :: rest => do
    let tags ← ParseSubresourceTag c subresource
    let sr := MakeSubresource dom c tags
    match lookupPath r sr.path with
    | some v => .error (.duplicatePath sr.path v subresource)
    | none => GetSubresourcesLoop dom c (r ++ [(sr.path, sr)]) rest

/-- `GetSubresources` — resolve all subresource directives of a resource
(`dom` is the builder's `b.Domain`).  Go's early return for an empty
directive list coincides with the loop on `[]`. -/
def GetSubresources (dom : String) (c : APIResource) (subresources : List String) :
    Except FatalErr (List (String × APISubresource)) :=
  GetSubresourcesLoop dom c [] subresources

/-! ### Declaration indexer (`ParseIndex`) -/

/-- Construction of an `APIResource` from a classified declaration
(`ParseIndex` lines 287–310): parse the `+resource=` tag, default the
strategy to `<group>.<Kind>Strategy` when unspecified, and derive the
status strategy by stripping a trailing `Strategy` and appending
`StatusStrategy`. -/
def MakeAPIResource (dom : String) (c : Decl) : Except FatalErr APIResource := do
  let rt ← ParseResourceTag c.resourceTag
  let strategy := if (rt.strategy).length = 0 then c.group ++ "." ++ c.kind ++ "Strategy" else rt.strategy
  let statusStrategy := goTrimSuffix strategy "Strategy" ++ "StatusStrategy"
  .ok { type := c.self, nonNamespaced := c.isNonNamespaced,
        group := c.group, version := c.version, kind := c.kind, domain := dom,
        resource := rt.resource, rest := rt.rest,
        strategy := strategy, statusStrategy := statusStrategy,
        subresources := [] }

/-- The resource record a declaration contributes to the indices.  In Go
the record is inserted as a pointer and its `Subresources` field is
assigned afterwards through that pointer; on a successful run the stored
record therefore carries the resolved subresources, which this embedding
constructs directly. -/
def BuildResource (dom : String) (c : Decl) : Except FatalErr APIResource := do
  let r ← MakeAPIResource dom c
  if c.hasSubresource then
    let subs ← GetSubresources dom r c.subresourceTags
    .ok { r with subresources := subs }
  else
    .ok r

/-- A three-level Go map `map[string]map[string]map[string]*T`, embedded
as a curried partial function (the nested create-if-missing scaffolding
of the source collapses; the pipeline only reads full-depth entries). -/
def Index3 (α : Type) : Type := String → String → String → Option α

/-- Insertion at a full-depth key. -/
def insert3 {α : Type} (m : Index3 α) (a b c : String) (v : α) : Index3 α :=
  fun x y z => if x = a ∧ y = b ∧ z = c then some v else m x y z

/-- The builder's three indices populated by `ParseIndex`. -/
structure Indexes where
  byGroupKindVersion : Index3 APIResource
  byGroupVersionKind : Index3 APIResource
  subByGroupVersionKind : Index3 TypeDesc

/-- Single pass of `ParseIndex` over the declaration universe: record
subresource types, skip non-resources, and insert each resource into both
dual indices — an existing entry at the same triple is silently
overwritten. -/
def ParseIndexLoop (dom : String) : List Decl → Indexes → Except FatalErr Indexes
  | [], st => .ok st
  | c :: rest, st =>
    let st :=
      if c.isAPISubresource then
        { st with subByGroupVersionKind :=
            insert3 st.subByGroupVersionKind c.group c.version c.kind c.self }
      else st
    if !c.isAPIResource then ParseIndexLoop dom rest st
    else do
      let r ← BuildResource dom c
      let st := { st with
        byGroupKindVersion := insert3 st.byGroupKindVersion r.group r.kind r.version r,
        byGroupVersionKind := insert3 st.byGroupVersionKind r.group r.version r.kind r }
      ParseIndexLoop dom rest st

/-- `ParseIndex` — build the three indices from the declaration order. -/
def ParseIndex (dom : String) (order : List Decl) : Except FatalErr Indexes :=
  ParseIndexLoop dom order
    { byGroupKindVersion := fun _ _ _ => none,
      byGroupVersionKind := fun _ _ _ => none,
      subByGroupVersionKind := fun _ _ _ => none }

/-! ### Struct/field graph builder (`ParseStructs` / `DoType`) -/

/-- Field produced by `DoType` for one member: same-package members keep
the bare type name with no import; members of the shared metadata package
`k8s.io/apimachinery/pkg/apis/meta/v1` are aliased to `metav1` keeping the
versioned type; other cross-package members are rewritten to the
unversioned parent-directory package, unwrapping one level of
pointer/slice/map indirection. -/
def MemberField (t : Decl) (member : Member) : Field :=
  let uType := member.type.name
  let uImport := ""
  let base := goFilepathBase member.type.str
  let samepkg := t.self.pkg = member.type.pkg
  let iu :=
    if samepkg then (uImport, uType)
    else
      let parts := goSplit base "."
      if parts.length > 1 then
        if member.type.pkg = "k8s.io/apimachinery/pkg/apis/meta/v1" then
          ("metav1 \"k8s.io/apimachinery/pkg/apis/meta/v1\"", "metav1." ++ parts.getD 1 "")
        else
          let td : ElemDesc :=
            match member.type.elem with
            | some e => { pkg := e.pkg, name := e.name }
            | none => { pkg := member.type.pkg, name := member.type.name }
          let hasElem := member.type.elem.isSome
          let uImportName := goPathBase (goPathDir td.pkg)
          let uImport := goPathDir td.pkg
          let uType := uImportName ++ "." ++ td.name
          let uType :=
            if hasElem then
              goReplaceOne (goReplaceOne member.type.str (goPathDir uImport ++ "/") "")
                ("/" ++ goPathBase td.pkg) ""
            else uType
          (uImport, uType)
      else (uImport, uType)
  let memberName := if member.embedded then "" else member.name
  { name := memberName, versionedPackage := member.type.pkg,
    unversionedImport := iu.1, unversionedType := iu.2 }

/-- `DoType` — flatten one type into a `Struct` and collect the member
types to process next (non-primitive members of the same API group).
The Go single loop over members is split into the field map and the
enqueue filter, which are computed member-wise exactly as the loop does. -/
def DoType (t : Decl) : Struct × List TypeDesc :=
  let genUnversioned := !(t.commentLines.any (fun c => goContainsSub c "+genregister:unversioned=false"))
  let fields := t.members.map (MemberField t)
  let remaining := (t.members.filter (fun m => !m.type.primitive && m.type.group == t.self.group)).map Member.type
  ({ name := t.self.name, genClient := false, genDeepCopy := false,
     genUnversioned := genUnversioned, fields := fields }, remaining)

/-- The Go work-list holds full `types.Type` objects; member descriptors
are resolved back to their declarations by bare type name.  A descriptor
with no declaration in the universe resolves to a member-less
declaration (its flattening contributes no further work). -/
def resolveDecl (decls : List Decl) (d : TypeDesc) : Decl :=
  match decls.find? (fun t => t.self.name == d.name) with
  | some t => t
  | none =>
    { self := d, commentLines := [], members := [],
      isAPIResource := false, isAPISubresource := false, hasSubresource := false,
      isNonNamespaced := false, group := d.group, version := "", kind := "",
      resourceTag := "", subresourceTags := [] }

/-- Work-list pop of `ParseStructs`: take the head, move the last element
into its place, and truncate (`remaining[0] = remaining[len-1];
remaining = remaining[:len-1]`). -/
def popSwap {α : Type} : List α → Option (α × List α)
  | [] => none
  | [a] => some (a, [])
  | a :: b :: rest => some (a, (b :: rest).getLastD a :: (b :: rest).dropLast)

/-- Post-processing of a flattened struct in the `ParseStructs` loop: the
client/deep-copy flags are set from the external comment classifiers `gc`
(`b.GenClient` — the type carries a `+resource` tag) and `gd`
(`b.GenDeepCopy` — the type carries a `+subresource-request` tag). -/
def processType (gc gd : Decl → Bool) (t : Decl) : Struct :=
  let result := (DoType t).1
  let result := if gc t then { result with genClient := true, genDeepCopy := true } else result
  if gd t then { result with genDeepCopy := true } else result

/-- `ParseStructs` work-list loop, with an explicit fuel argument (the Go
loop runs until the list is empty; termination is proved separately).
A popped type whose bare name is in `done` is skipped; otherwise it is
flattened by `DoType`, post-processed, and the newly discovered types are
appended to the work-list. -/
def ParseStructsLoop (gc gd : Decl → Bool) (decls : List Decl) :
    Nat → List TypeDesc → List String → List Struct → Option (List Struct)
  | 0, remaining, _, structs =>
    match popSwap remaining with
    | none => some structs
    | some _ => none
  | fuel + 1, remaining, done, structs =>
    match popSwap remaining with
    | none => some structs
    | some (next, rest) =>
      if done.contains next.name then
        ParseStructsLoop gc gd decls fuel rest done structs
      else
        let t := resolveDecl decls next
        ParseStructsLoop gc gd decls fuel (rest ++ (DoType t).2) (next.name :: done)
          (structs ++ [processType gc gd t])

/-- The largest member count of any declaration in the universe. -/
def maxMembers (decls : List Decl) : Nat :=
  decls.foldr (fun d acc => max d.members.length acc) 0

/-- The distinct bare names declared in the universe. -/
def declNames (decls : List Decl) : List String :=
  (decls.map (fun d => d.self.name)).dedup

/-- Termination measure for the work-list: every processed name leaves the
not-yet-done part of the universe, paying for the at most `maxMembers`
types it enqueues. -/
def structsMeasure (decls : List Decl) (remaining : List TypeDesc) (done : List String) : Nat :=
  (maxMembers decls + 1) * ((declNames decls).filter (fun n => !done.contains n)).length
    + remaining.length

/-- `ParseStructs` for one API group, seeded with the group's resource
types and recorded subresource types (`seed`); the seed order is the Go
map iteration order, so it is kept abstract. -/
def ParseStructs (gc gd : Decl → Bool) (decls : List Decl) (seed : List TypeDesc) :
    Option (List Struct) :=
  ParseStructsLoop gc gd decls (structsMeasure decls seed []) seed [] []

/-! ### Specification views used by the theorems -/

/-- The value a tag element contributes for key `k`: `some v` when the
element splits on `=` into exactly `[k, v]`. -/
def kvOf (k : String) (e : String) : Option String :=
  match goSplit e "=" with
  | [k1, v] => if k1 = k then some v else none
  | _ => none

/-- The value of the last element carrying key `k`, or `dflt` when no
element carries it. -/
def lastValD (k : String) (es : List String) (dflt : String) : String :=
  ((es.filterMap (kvOf k)).getLast?).getD dflt

/-- As `lastValD`, with a post-transformation `f` applied to a found
value (used for the subresource `path` stripping). -/
def lastValW (f : String → String) (k : String) (es : List String) (dflt : String) : String :=
  match (es.filterMap (kvOf k)).getLast? with
  | some v => f v
  | none => dflt

/-- The strings interpolated into a fatal diagnostic, in message order
(a `duplicatePath` prints the colliding path, the string fields of the
`%v`-dumped existing descriptor, and the raw offending directive). -/
def errStrings : FatalErr → List String
  | .resourceTagKV raw => [raw]
  | .controllerTagKV raw => [raw]
  | .subresourceTagKV raw => [raw]
  | .duplicatePath p sr d =>
    [p, sr.domain, sr.group, sr.version, sr.kind, sr.resource, sr.request, sr.rest, sr.path,
     sr.importPackage, d]

/-! ### Concrete sample inputs (used to evaluate the theorems) -/

/-- Descriptor of the shared-metadata `ObjectMeta` type. -/
def sampleMetaDesc : TypeDesc :=
  { name := "ObjectMeta", pkg := "k8s.io/apimachinery/pkg/apis/meta/v1",
    str := "k8s.io/apimachinery/pkg/apis/meta/v1.ObjectMeta", elem := none,
    primitive := false, group := "meta" }

/-- Descriptor of a same-package status type. -/
def sampleStatusDesc : TypeDesc :=
  { name := "WidgetStatus", pkg := "repo/apis/core/v1",
    str := "repo/apis/core/v1.WidgetStatus", elem := none,
    primitive := false, group := "core" }

/-- Descriptor of a sample resource type. -/
def sampleWidgetDesc : TypeDesc :=
  { name := "Widget", pkg := "repo/apis/core/v1", str := "repo/apis/core/v1.Widget",
    elem := none, primitive := false, group := "core" }

/-- A declaration classified as an API resource with one subresource. -/
def sampleWidgetDecl : Decl :=
  { self := sampleWidgetDesc, commentLines := [],
    members := [
      { name := "ObjectMeta", embedded := true, type := sampleMetaDesc },
      { name := "Status", embedded := false, type := sampleStatusDesc } ],
    isAPIResource := true, isAPISubresource := false, hasSubresource := true,
    isNonNamespaced := false, group := "core", version := "v1", kind := "Widget",
    resourceTag := "path=widgets",
    subresourceTags := ["request=ScaleRequest,path=widgets/scale,rest=ScaleREST"] }

/-- Same resource type with member order status-first and nothing embedded. -/
def sampleWidget2Decl : Decl :=
  { self := sampleWidgetDesc, commentLines := [],
    members := [
      { name := "Status", embedded := false, type := sampleStatusDesc },
      { name := "ObjectMeta", embedded := false, type := sampleMetaDesc } ],
    isAPIResource := true, isAPISubresource := false, hasSubresource := false,
    isNonNamespaced := false, group := "core", version := "v1", kind := "Widget",
    resourceTag := "path=widgets", subresourceTags := [] }

/-- The status declaration, referring back to `Widget` (a reference cycle
by bare name). -/
def sampleStatusDecl : Decl :=
  { self := sampleStatusDesc, commentLines := [],
    members := [ { name := "Again", embedded := false, type := sampleWidgetDesc } ],
    isAPIResource := false, isAPISubresource := false, hasSubresource := false,
    isNonNamespaced := false, group := "core", version := "v1", kind := "",
    resourceTag := "", subresourceTags := [] }

/-- A declaration whose only member is cross-group (its flattening
enqueues nothing). -/
def sampleLeafDecl : Decl :=
  { self := sampleStatusDesc, commentLines := [],
    members := [ { name := "Meta", embedded := false, type := sampleMetaDesc } ],
    isAPIResource := false, isAPISubresource := false, hasSubresource := false,
    isNonNamespaced := false, group := "core", version := "v1", kind := "",
    resourceTag := "", subresourceTags := [] }

/-- A sample resolved resource record (plural name `widgets`). -/
def sampleResource : APIResource :=
  { domain := "k8s.io", group := "core", version := "v1", kind := "Widget",
    resource := "widgets", rest := "", subresources := [], type := sampleWidgetDesc,
    strategy := "core.WidgetStrategy", statusStrategy := "core.WidgetStatusStrategy",
    nonNamespaced := false }

/-- First subresource directive of the duplicate-path scenario. -/
def dupDirectiveA : String := "request=ScaleRequest,path=widgets/scale,rest=ScaleREST"

/-- Second subresource directive resolving to the same path. -/
def dupDirectiveB : String := "request=Foo,path=widgets/scale"

/-- The descriptor registered for the first directive, as stored before
the collision is detected. -/
def dupExisting : APISubresource :=
  { domain := "k8s.io", group := "core", version := "v1", kind := "",
    resource := "widgets", request := "ScaleRequest", rest := "ScaleREST",
    path := "scale", importPackage := "" }

/-- `b.GenClient` classifier used on the samples. -/
def sampleGenClient : Decl → Bool := fun d => d.isAPIResource

/-- `b.GenDeepCopy` classifier used on the samples. -/
def sampleGenDeepCopy : Decl → Bool := fun _ => false

/-- The declaration universe of the sample group. -/
def sampleDecls : List Decl := [sampleWidgetDecl, sampleStatusDecl]

/-- Output of the struct builder on the sample universe. -/
def sampleStructsOut : List Struct :=
  (ParseStructs sampleGenClient sampleGenDeepCopy sampleDecls [sampleWidgetDesc]).getD []

/-- Indexes produced on a universe with two declarations of the same
group/version/kind. -/
def sampleIndexes : Indexes :=
  match ParseIndex "k8s.io" ([sampleWidget2Decl] ++ [sampleWidgetDecl]) with
  | .ok st => st
  | .error _ =>
    { byGroupKindVersion := fun _ _ _ => none,
      byGroupVersionKind := fun _ _ _ => none,
      subByGroupVersionKind := fun _ _ _ => none }

/-- Parsed tags of `dupDirectiveA` on `sampleResource`. -/
def sampleLocalTags : SubresourceTags :=
  { path := "scale", kind := "", requestKind := "ScaleRequest", rest := "ScaleREST" }

/-- Parsed tags of `dupDirectiveB` on `sampleResource`. -/
def sampleFooTags : SubresourceTags :=
  { path := "scale", kind := "", requestKind := "Foo", rest := "" }

/-- Subresource tags with a package-qualified request type. -/
def sampleImportedTags : SubresourceTags :=
  { path := "scale", kind := "", requestKind := "k8s.io/api/autoscaling/v1.Scale",
    rest := "ScaleREST" }

/-- The resource record built from `sampleWidgetDecl`. -/
def sampleMadeResource : APIResource :=
  match MakeAPIResource "k8s.io" sampleWidgetDecl with
  | .ok r => r
  | .error _ => sampleResource

/-- The record stored in `sampleIndexes` under core/v1/Widget. -/
def sampleStoredResource : APIResource :=
  match sampleIndexes.byGroupVersionKind "core" "v1" "Widget" with
  | some r => r
  | none => sampleResource

/-! ### Tag-parser lemmas -/

lemma goSplit_len2 {e : String} (h : (goSplit e "=").length = 2) :
    ∃ k v, goSplit e "=" = [k, v] := by
  rcases hs : goSplit e "=" with _ | ⟨k, _ | ⟨v, _ | ⟨c, t⟩⟩⟩
  · rw [hs] at h; simp at h
  · rw [hs] at h; simp at h
  · exact ⟨k, v, rfl⟩
  · rw [hs] at h; simp at h

lemma kvOf_eq {e k0 v : String} (hkv : goSplit e "=" = [k0, v]) (k : String) :
    kvOf k e = if k0 = k then some v else none := by
  simp [kvOf, hkv]

lemma getLast?_cons_some {α : Type} (b : α) (t : List α) :
    ∃ x, (b :: t).getLast? = some x := by
  induction t generalizing b with
  | nil => exact ⟨b, rfl⟩
  | cons c t ih => rw [List.getLast?_cons_cons]; exact ih c

lemma getLastD_cons {α : Type} (v d : α) (l : List α) :
    ((v :: l).getLast?).getD d = ((l.getLast?).getD v) := by
  cases l with
  | nil => simp
  | cons b t =>
    obtain ⟨x, hx⟩ := getLast?_cons_some b t
    rw [List.getLast?_cons_cons, hx]
    simp

lemma lastValD_cons_hit {e k v : String} (es : List String) (d : String)
    (h : kvOf k e = some v) : lastValD k (e :: es) d = lastValD k es v := by
  simp [lastValD, List.filterMap_cons, h, getLastD_cons]

lemma lastValD_cons_miss {e k : String} (es : List String) (d : String)
    (h : kvOf k e = none) : lastValD k (e :: es) d = lastValD k es d := by
  simp [lastValD, List.filterMap_cons, h]

lemma lastValW_cons_hit (f : String → String) {e k v : String} (es : List String) (d : String)
    (h : kvOf k e = some v) : lastValW f k (e :: es) d = lastValW f k es (f v) := by
  simp only [lastValW, List.filterMap_cons, h]
  cases hfm : es.filterMap (kvOf k) with
  | nil => simp
  | cons b t =>
    obtain ⟨x, hx⟩ := getLast?_cons_some b t
    rw [List.getLast?_cons_cons, hx]

lemma lastValW_cons_miss (f : String → String) {e k : String} (es : List String) (d : String)
    (h : kvOf k e = none) : lastValW f k (e :: es) d = lastValW f k es d := by
  simp only [lastValW, List.filterMap_cons, h]

/-- Master description of the `+resource=` element loop on well-formed
input: it succeeds and each recognized key holds the value of its last
occurrence (or the accumulator's value when absent). -/
lemma ParseResourceElems_wf (tag : String) :
    ∀ (es : List String) (acc : ResourceTags),
      (∀ e ∈ es, (goSplit e "=").length = 2) →
      ParseResourceElems tag acc es =
        .ok { resource := lastValD "path" es acc.resource,
              rest := lastValD "rest" es acc.rest,
              strategy := lastValD "strategy" es acc.strategy } := by
  intro es
  induction es with
  | nil =>
    intro acc _
    simp [ParseResourceElems, lastValD]
  | cons e rest ih =>
    intro acc h
    obtain ⟨k, v, hkv⟩ := goSplit_len2 (h e (by simp))
    have hrest : ∀ x ∈ rest, (goSplit x "=").length = 2 := fun x hx => h x (by simp [hx])
    simp only [ParseResourceElems, hkv]
    by_cases h1 : k = "rest"
    · subst h1
      rw [lastValD_cons_hit rest acc.rest (by rw [kvOf_eq hkv]; exact if_pos rfl),
        lastValD_cons_miss rest acc.resource (by rw [kvOf_eq hkv]; exact if_neg (by decide)),
        lastValD_cons_miss rest acc.strategy (by rw [kvOf_eq hkv]; exact if_neg (by decide)),
        if_pos rfl]
      exact ih { acc with rest := v } hrest
    · by_cases h2 : k = "path"
      · subst h2
        rw [lastValD_cons_hit rest acc.resource (by rw [kvOf_eq hkv]; exact if_pos rfl),
          lastValD_cons_miss rest acc.rest (by rw [kvOf_eq hkv]; exact if_neg (by decide)),
          lastValD_cons_miss rest acc.strategy (by rw [kvOf_eq hkv]; exact if_neg (by decide)),
          if_neg (by decide), if_pos rfl]
        exact ih { acc with resource := v } hrest
      · by_cases h3 : k = "strategy"
        · subst h3
          rw [lastValD_cons_hit rest acc.strategy (by rw [kvOf_eq hkv]; exact if_pos rfl),
            lastValD_cons_miss rest acc.rest (by rw [kvOf_eq hkv]; exact if_neg (by decide)),
            lastValD_cons_miss rest acc.resource (by rw [kvOf_eq hkv]; exact if_neg (by decide)),
            if_neg (by decide), if_neg (by decide), if_pos rfl]
          exact ih { acc with strategy := v } hrest
        · rw [lastValD_cons_miss rest acc.rest (by rw [kvOf_eq hkv]; exact if_neg h1),
            lastValD_cons_miss rest acc.resource (by rw [kvOf_eq hkv]; exact if_neg h2),
            lastValD_cons_miss rest acc.strategy (by rw [kvOf_eq hkv]; exact if_neg h3),
            if_neg h1, if_neg h2, if_neg h3]
          exact ih acc hrest

/-- On input with a malformed element, the `+resource=` element loop
fails with the key/value diagnostic carrying the raw tag string. -/
lemma ParseResourceElems_err (tag : String) :
    ∀ (es : List String) (acc : ResourceTags),
      (∃ e ∈ es, (goSplit e "=").length ≠ 2) →
      ParseResourceElems tag acc es = .error (.resourceTagKV tag) := by
  intro es
  induction es with
  | nil => intro acc h; simp at h
  | cons e rest ih =>
    intro acc h
    by_cases he : (goSplit e "=").length = 2
    · obtain ⟨k, v, hkv⟩ := goSplit_len2 he
      simp only [ParseResourceElems, hkv]
      apply ih
      obtain ⟨x, hx, hbad⟩ := h
      rcases List.mem_cons.mp hx with rfl | hx'
      · exact absurd he hbad
      · exact ⟨x, hx', hbad⟩
    · rcases hs : goSplit e "=" with _ | ⟨a, _ | ⟨b, _ | ⟨c, t⟩⟩⟩
      · simp [ParseResourceElems, hs]
      · simp [ParseResourceElems, hs]
      · exact absurd (by rw [hs]; rfl) he
      · simp [ParseResourceElems, hs]

/-- Master description of the `+controller=` element loop on well-formed
input. -/
lemma ParseControllerElems_wf (tag : String) :
    ∀ (es : List String) (acc : ControllerTags),
      (∀ e ∈ es, (goSplit e "=").length = 2) →
      ParseControllerElems tag acc es =
        .ok { gvk := { group := lastValD "group" es acc.gvk.group,
                       version := lastValD "version" es acc.gvk.version,
                       kind := lastValD "kind" es acc.gvk.kind },
              resource := lastValD "resource" es acc.resource } := by
  intro es
  induction es with
  | nil =>
    intro acc _
    simp [ParseControllerElems, lastValD]
  | cons e rest ih =>
    intro acc h
    obtain ⟨k, v, hkv⟩ := goSplit_len2 (h e (by simp))
    have hrest : ∀ x ∈ rest, (goSplit x "=").length = 2 := fun x hx => h x (by simp [hx])
    simp only [ParseControllerElems, hkv]
    by_cases h1 : k = "group"
    · subst h1
      rw [lastValD_cons_hit rest acc.gvk.group (by rw [kvOf_eq hkv]; exact if_pos rfl),
        lastValD_cons_miss rest acc.gvk.version (by rw [kvOf_eq hkv]; exact if_neg (by decide)),
        lastValD_cons_miss rest acc.gvk.kind (by rw [kvOf_eq hkv]; exact if_neg (by decide)),
        lastValD_cons_miss rest acc.resource (by rw [kvOf_eq hkv]; exact if_neg (by decide)),
        if_pos rfl]
      exact ih { acc with gvk := { acc.gvk with group := v } } hrest
    · by_cases h2 : k = "version"
      · subst h2
        rw [lastValD_cons_hit rest acc.gvk.version (by rw [kvOf_eq hkv]; exact if_pos rfl),
          lastValD_cons_miss rest acc.gvk.group (by rw [kvOf_eq hkv]; exact if_neg (by decide)),
          lastValD_cons_miss rest acc.gvk.kind (by rw [kvOf_eq hkv]; exact if_neg (by decide)),
          lastValD_cons_miss rest acc.resource (by rw [kvOf_eq hkv]; exact if_neg (by decide)),
          if_neg (by decide), if_pos rfl]
        exact ih { acc with gvk := { acc.gvk with version := v } } hrest
      · by_cases h3 : k = "kind"
        · subst h3
          rw [lastValD_cons_hit rest acc.gvk.kind (by rw [kvOf_eq hkv]; exact if_pos rfl),
            lastValD_cons_miss rest acc.gvk.group (by rw [kvOf_eq hkv]; exact if_neg (by decide)),
            lastValD_cons_miss rest acc.gvk.version (by rw [kvOf_eq hkv]; exact if_neg (by decide)),
            lastValD_cons_miss rest acc.resource (by rw [kvOf_eq hkv]; exact if_neg (by decide)),
            if_neg (by decide), if_neg (by decide), if_pos rfl]
          exact ih { acc with gvk := { acc.gvk with kind := v } } hrest
        · by_cases h4 : k = "resource"
          · subst h4
            rw [lastValD_cons_hit rest acc.resource (by rw [kvOf_eq hkv]; exact if_pos rfl),
              lastValD_cons_miss rest acc.gvk.group (by rw [kvOf_eq hkv]; exact if_neg (by decide)),
              lastValD_cons_miss rest acc.gvk.version (by rw [kvOf_eq hkv]; exact if_neg (by decide)),
              lastValD_cons_miss rest acc.gvk.kind (by rw [kvOf_eq hkv]; exact if_neg (by decide)),
              if_neg (by decide), if_neg (by decide), if_neg (by decide), if_pos rfl]
            exact ih { acc with resource := v } hrest
          · rw [lastValD_cons_miss rest acc.gvk.group (by rw [kvOf_eq hkv]; exact if_neg h1),
              lastValD_cons_miss rest acc.gvk.version (by rw [kvOf_eq hkv]; exact if_neg h2),
              lastValD_cons_miss rest acc.gvk.kind (by rw [kvOf_eq hkv]; exact if_neg h3),
              lastValD_cons_miss rest acc.resource (by rw [kvOf_eq hkv]; exact if_neg h4),
              if_neg h1, if_neg h2, if_neg h3, if_neg h4]
            exact ih acc hrest

/-- On input with a malformed element, the `+controller=` element loop
fails with the key/value diagnostic carrying the raw tag string. -/
lemma ParseControllerElems_err (tag : String) :
    ∀ (es : List String) (acc : ControllerTags),
      (∃ e ∈ es, (goSplit e "=").length ≠ 2) →
      ParseControllerElems tag acc es = .error (.controllerTagKV tag) := by
  intro es
  induction es with
  | nil => intro acc h; simp at h
  | cons e rest ih =>
    intro acc h
    by_cases he : (goSplit e "=").length = 2
    · obtain ⟨k, v, hkv⟩ := goSplit_len2 he
      simp only [ParseControllerElems, hkv]
      apply ih
      obtain ⟨x, hx, hbad⟩ := h
      rcases List.mem_cons.mp hx with rfl | hx'
      · exact absurd he hbad
      · exact ⟨x, hx', hbad⟩
    · rcases hs : goSplit e "=" with _ | ⟨a, _ | ⟨b, _ | ⟨c, t⟩⟩⟩
      · simp [ParseControllerElems, hs]
      · simp [ParseControllerElems, hs]
      · exact absurd (by rw [hs]; rfl) he
      · simp [ParseControllerElems, hs]

/-- Master description of the `+subresource=` element loop on well-formed
input: the stored path is the stripped form of the last `path` value. -/
lemma ParseSubElems_wf (c : APIResource) (tag : String) :
    ∀ (es : List String) (acc : SubresourceTags),
      (∀ e ∈ es, (goSplit e "=").length = 2) →
      ParseSubElems c tag acc es =
        .ok { path := lastValW (fun v => goReplaceAll v (c.resource ++ "/") "") "path" es acc.path,
              kind := acc.kind,
              requestKind := lastValD "request" es acc.requestKind,
              rest := lastValD "rest" es acc.rest } := by
  intro es
  induction es with
  | nil =>
    intro acc _
    simp [ParseSubElems, lastValD, lastValW]
  | cons e rest ih =>
    intro acc h
    obtain ⟨k, v, hkv⟩ := goSplit_len2 (h e (by simp))
    have hrest : ∀ x ∈ rest, (goSplit x "=").length = 2 := fun x hx => h x (by simp [hx])
    simp only [ParseSubElems, hkv]
    by_cases h1 : k = "request"
    · subst h1
      rw [lastValD_cons_hit rest acc.requestKind (by rw [kvOf_eq hkv]; exact if_pos rfl),
        lastValD_cons_miss rest acc.rest (by rw [kvOf_eq hkv]; exact if_neg (by decide)),
        lastValW_cons_miss _ rest acc.path (by rw [kvOf_eq hkv]; exact if_neg (by decide)),
        if_pos rfl]
      exact ih { acc with requestKind := v } hrest
    · by_cases h2 : k = "rest"
      · subst h2
        rw [lastValD_cons_hit rest acc.rest (by rw [kvOf_eq hkv]; exact if_pos rfl),
          lastValD_cons_miss rest acc.requestKind (by rw [kvOf_eq hkv]; exact if_neg (by decide)),
          lastValW_cons_miss _ rest acc.path (by rw [kvOf_eq hkv]; exact if_neg (by decide)),
          if_neg (by decide), if_pos rfl]
        exact ih { acc with rest := v } hrest
      · by_cases h3 : k = "path"
        · subst h3
          rw [lastValW_cons_hit _ rest acc.path (by rw [kvOf_eq hkv]; exact if_pos rfl),
            lastValD_cons_miss rest acc.requestKind (by rw [kvOf_eq hkv]; exact if_neg (by decide)),
            lastValD_cons_miss rest acc.rest (by rw [kvOf_eq hkv]; exact if_neg (by decide)),
            if_neg (by decide), if_neg (by decide), if_pos rfl]
          exact ih { acc with path := goReplaceAll v (c.resource ++ "/") "" } hrest
        · rw [lastValD_cons_miss rest acc.requestKind (by rw [kvOf_eq hkv]; exact if_neg h1),
            lastValD_cons_miss rest acc.rest (by rw [kvOf_eq hkv]; exact if_neg h2),
            lastValW_cons_miss _ rest acc.path (by rw [kvOf_eq hkv]; exact if_neg h3),
            if_neg h1, if_neg h2, if_neg h3]
          exact ih acc hrest

/-- On input with a malformed element, the `+subresource=` element loop
fails with the key/value diagnostic carrying the raw tag string. -/
lemma ParseSubElems_err (c : APIResource) (tag : String) :
    ∀ (es : List String) (acc : SubresourceTags),
      (∃ e ∈ es, (goSplit e "=").length ≠ 2) →
      ParseSubElems c tag acc es = .error (.subresourceTagKV tag) := by
  intro es
  induction es with
  | nil => intro acc h; simp at h
  | cons e rest ih =>
    intro acc h
    by_cases he : (goSplit e "=").length = 2
    · obtain ⟨k, v, hkv⟩ := goSplit_len2 he
      simp only [ParseSubElems, hkv]
      apply ih
      obtain ⟨x, hx, hbad⟩ := h
      rcases List.mem_cons.mp hx with rfl | hx'
      · exact absurd he hbad
      · exact ⟨x, hx', hbad⟩
    · rcases hs : goSplit e "=" with _ | ⟨a, _ | ⟨b, _ | ⟨c2, t⟩⟩⟩
      · simp [ParseSubElems, hs]
      · simp [ParseSubElems, hs]
      · exact absurd (by rw [hs]; rfl) he
      · simp [ParseSubElems, hs]

/-! ### String-helper lemmas -/

lemma subListOf_single (c : Char) : ∀ (l : List Char), subListOf [c] l = true ↔ c ∈ l := by
  intro l
  induction l with
  | nil => simp [subListOf]
  | cons a t ih =>
    simp [subListOf, listHasPre, Bool.or_eq_true, beq_iff_eq, ih, List.mem_cons]

lemma listLastIdx_none {c : Char} : ∀ {l : List Char}, listLastIdx c l = none → c ∉ l := by
  intro l
  induction l with
  | nil => intro _; simp
  | cons a t ih =>
    intro h
    simp only [listLastIdx] at h
    cases ht : listLastIdx c t with
    | some i => rw [ht] at h; simp at h
    | none =>
      rw [ht] at h
      by_cases hac : a = c
      · rw [if_pos hac] at h; simp at h
      · intro hmem
        rcases List.mem_cons.mp hmem with rfl | hmem'
        · exact hac rfl
        · exact ih ht hmem'

lemma listLastIdx_decomp {c : Char} :
    ∀ {l : List Char} {i : Nat}, listLastIdx c l = some i →
      l = l.take i ++ c :: l.drop (i + 1) ∧ c ∉ l.drop (i + 1) := by
  intro l
  induction l with
  | nil => intro i h; simp [listLastIdx] at h
  | cons a t ih =>
    intro i h
    simp only [listLastIdx] at h
    cases ht : listLastIdx c t with
    | some j =>
      rw [ht] at h
      obtain rfl : i = j + 1 := (Option.some.inj h).symm
      obtain ⟨hdec, hnot⟩ := ih ht
      refine ⟨?_, ?_⟩
      · rw [List.take_succ_cons, List.drop_succ_cons, List.cons_append, ← hdec]
      · rw [List.drop_succ_cons]; exact hnot
    | none =>
      rw [ht] at h
      by_cases hac : a = c
      · rw [if_pos hac] at h
        obtain rfl : i = 0 := (Option.some.inj h).symm
        subst hac
        refine ⟨by simp, by simpa using listLastIdx_none ht⟩
      · rw [if_neg hac] at h; cases h

lemma mem_iff_lastIdx (c : Char) (l : List Char) :
    c ∈ l ↔ ∃ i, listLastIdx c l = some i := by
  constructor
  · intro hm
    cases hl : listLastIdx c l with
    | none => exact absurd hm (listLastIdx_none hl)
    | some i => exact ⟨i, rfl⟩
  · rintro ⟨i, hi⟩
    rw [(listLastIdx_decomp hi).1]
    simp

lemma string_mk_append (a b : List Char) :
    (⟨a⟩ : String) ++ (⟨b⟩ : String) = ⟨a ++ b⟩ := rfl

lemma except_bind_ok {ε α β : Type} (a : α) (f : α → Except ε β) :
    (Except.ok a >>= f : Except ε β) = f a := rfl

lemma except_bind_error {ε α β : Type} (e : ε) (f : α → Except ε β) :
    (Except.error e >>= f : Except ε β) = .error e := rfl

/-! ### Subresource-resolver lemmas -/

/-- The subresource element loop never assigns the `Kind` field. -/
lemma ParseSubElems_kind (c : APIResource) (tag : String) :
    ∀ (es : List String) (acc t : SubresourceTags),
      ParseSubElems c tag acc es = .ok t → t.kind = acc.kind := by
  intro es
  induction es with
  | nil =>
    intro acc t h
    simp only [ParseSubElems] at h
    cases h
    rfl
  | cons e rest ih =>
    intro acc t h
    simp only [ParseSubElems] at h
    rcases hs : goSplit e "=" with _ | ⟨k, _ | ⟨v, _ | ⟨x, xs⟩⟩⟩ <;> rw [hs] at h
    · simp at h
    · simp at h
    · rw [ih _ _ h]
      split_ifs <;> rfl
    · simp at h

/-- `MakeSubresource` copies the parsed (never-assigned) `Kind` field. -/
lemma MakeSubresource_kind (dom : String) (c : APIResource) (tags : SubresourceTags) :
    (MakeSubresource dom c tags).kind = tags.kind := by
  simp only [MakeSubresource]
  split_ifs <;> rfl

lemma GetSubresourcesLoop_kind (dom : String) (c : APIResource) :
    ∀ (ds : List String) (r out : List (String × APISubresource)),
      GetSubresourcesLoop dom c r ds = .ok out →
      (∀ p sr, (p, sr) ∈ r → sr.kind = "") →
      ∀ p sr, (p, sr) ∈ out → sr.kind = "" := by
  intro ds
  induction ds with
  | nil =>
    intro r out h hr
    simp only [GetSubresourcesLoop] at h
    cases h
    exact hr
  | cons d rest ih =>
    intro r out h hr
    simp only [GetSubresourcesLoop] at h
    cases hp : ParseSubresourceTag c d with
    | error e => rw [hp] at h; simp only [except_bind_error] at h; simp at h
    | ok tags =>
      rw [hp] at h
      simp only [except_bind_ok] at h
      have htk : tags.kind = "" := ParseSubElems_kind c d _ _ _ hp
      cases hl : lookupPath r (MakeSubresource dom c tags).path with
      | some v => rw [hl] at h; simp at h
      | none =>
        rw [hl] at h
        refine ih _ _ h ?_
        intro p sr hmem
        rcases List.mem_append.mp hmem with hmem' | hmem'
        · exact hr p sr hmem'
        · rcases List.mem_singleton.mp hmem' with heq
          have : sr = MakeSubresource dom c tags := congrArg Prod.snd heq
          rw [this, MakeSubresource_kind, htk]

/-! ### Indexer lemmas -/

lemma MakeAPIResource_spec {dom : String} {c : Decl} {r : APIResource}
    (h : MakeAPIResource dom c = .ok r) :
    ∃ rt, ParseResourceTag c.resourceTag = .ok rt ∧
      r.strategy = (if rt.strategy.length = 0
        then c.group ++ "." ++ c.kind ++ "Strategy" else rt.strategy) ∧
      r.statusStrategy = goTrimSuffix r.strategy "Strategy" ++ "StatusStrategy" ∧
      r.group = c.group ∧ r.version = c.version ∧ r.kind = c.kind ∧
      r.resource = rt.resource ∧ r.rest = rt.rest ∧ r.subresources = [] := by
  unfold MakeAPIResource at h
  cases hp : ParseResourceTag c.resourceTag with
  | error e => rw [hp] at h; simp only [except_bind_error] at h; simp at h
  | ok rt =>
    rw [hp] at h
    simp only [except_bind_ok] at h
    cases h
    exact ⟨rt, rfl, rfl, rfl, rfl, rfl, rfl, rfl, rfl, rfl⟩

lemma BuildResource_spec {dom : String} {c : Decl} {r : APIResource}
    (h : BuildResource dom c = .ok r) :
    ∃ r0, MakeAPIResource dom c = .ok r0 ∧
      r.strategy = r0.strategy ∧ r.statusStrategy = r0.statusStrategy ∧
      r.group = r0.group ∧ r.version = r0.version ∧ r.kind = r0.kind := by
  unfold BuildResource at h
  cases hm : MakeAPIResource dom c with
  | error e => rw [hm] at h; simp only [except_bind_error] at h; simp at h
  | ok r0 =>
    rw [hm] at h
    simp only [except_bind_ok] at h
    by_cases hsub : c.hasSubresource
    · simp only [hsub, if_pos] at h
      cases hg : GetSubresources dom r0 c.subresourceTags with
      | error e => rw [hg] at h; simp only [except_bind_error] at h; simp at h
      | ok subs =>
        rw [hg] at h
        simp only [except_bind_ok] at h
        have hrr := Except.ok.inj h
        subst hrr
        exact ⟨r0, rfl, rfl, rfl, rfl, rfl, rfl⟩
    · simp only [hsub, Bool.false_eq_true, if_false] at h
      have hrr := Except.ok.inj h
      subst hrr
      exact ⟨r0, rfl, rfl, rfl, rfl, rfl, rfl⟩

lemma insert3_transp {i1 i2 : Index3 APIResource} (G K V : String) (r0 : APIResource)
    (hst : ∀ g v k r, i1 g k v = some r ↔ i2 g v k = some r) :
    ∀ g v k r, insert3 i1 G K V r0 g k v = some r ↔ insert3 i2 G V K r0 g v k = some r := by
  intro g v k r
  unfold insert3
  by_cases hc : g = G ∧ k = K ∧ v = V
  · rw [if_pos hc, if_pos ⟨hc.1, hc.2.2, hc.2.1⟩]
  · rw [if_neg hc, if_neg (fun hc2 => hc ⟨hc2.1, hc2.2.2, hc2.2.1⟩)]
    exact hst g v k r

/-- The two dual indices stay transposed copies of each other across the
indexing pass. -/
lemma ParseIndexLoop_transp (dom : String) :
    ∀ (order : List Decl) (st st' : Indexes),
      ParseIndexLoop dom order st = .ok st' →
      (∀ g v k r, st.byGroupKindVersion g k v = some r ↔ st.byGroupVersionKind g v k = some r) →
      (∀ g v k r, st'.byGroupKindVersion g k v = some r ↔ st'.byGroupVersionKind g v k = some r) := by
  intro order
  induction order with
  | nil =>
    intro st st' h hst
    simp only [ParseIndexLoop] at h
    cases h
    exact hst
  | cons c rest ih =>
    intro st st' h hst
    simp only [ParseIndexLoop] at h
    by_cases hres : c.isAPIResource
    · simp only [hres, Bool.not_true, Bool.false_eq_true, if_false] at h
      cases hb : BuildResource dom c with
      | error e => rw [hb] at h; simp only [except_bind_error] at h; simp at h
      | ok r =>
        rw [hb] at h
        simp only [except_bind_ok] at h
        refine ih _ _ h ?_
        by_cases hsubr : c.isAPISubresource <;>
          simp only [hsubr, Bool.false_eq_true, if_true, if_false] <;>
          exact insert3_transp r.group r.kind r.version r hst
    · simp only [hres, Bool.not_false, Bool.false_eq_true, if_true] at h
      refine ih _ _ h ?_
      by_cases hsubr : c.isAPISubresource <;>
        simp only [hsubr, Bool.false_eq_true, if_true, if_false] <;> exact hst

/-- Stored resources of the by-group-version-kind index all satisfy a
property enjoyed by every successfully built resource. -/
lemma ParseIndexLoop_stored (dom : String) (P : APIResource → Prop)
    (hbuild : ∀ c r, BuildResource dom c = .ok r → P r) :
    ∀ (order : List Decl) (st st' : Indexes),
      ParseIndexLoop dom order st = .ok st' →
      (∀ g v k r, st.byGroupVersionKind g v k = some r → P r) →
      (∀ g v k r, st'.byGroupVersionKind g v k = some r → P r) := by
  intro order
  induction order with
  | nil =>
    intro st st' h hst
    simp only [ParseIndexLoop] at h
    cases h
    exact hst
  | cons c rest ih =>
    intro st st' h hst
    simp only [ParseIndexLoop] at h
    by_cases hres : c.isAPIResource
    · simp only [hres, Bool.not_true, Bool.false_eq_true, if_false] at h
      cases hb : BuildResource dom c with
      | error e => rw [hb] at h; simp only [except_bind_error] at h; simp at h
      | ok r =>
        rw [hb] at h
        simp only [except_bind_ok] at h
        refine ih _ _ h ?_
        intro g v k r' hr'
        by_cases hsubr : c.isAPISubresource <;>
            simp only [hsubr, Bool.false_eq_true, if_true, if_false, insert3] at hr'
        · by_cases hc : g = r.group ∧ v = r.version ∧ k = r.kind
          · rw [if_pos hc] at hr'
            cases hr'
            exact hbuild c r hb
          · rw [if_neg hc] at hr'
            exact hst g v k r' hr'
        · by_cases hc : g = r.group ∧ v = r.version ∧ k = r.kind
          · rw [if_pos hc] at hr'
            cases hr'
            exact hbuild c r hb
          · rw [if_neg hc] at hr'
            exact hst g v k r' hr'
    · simp only [hres, Bool.not_false, Bool.false_eq_true, if_true] at h
      refine ih _ _ h ?_
      by_cases hsubr : c.isAPISubresource <;>
        simp only [hsubr, Bool.false_eq_true, if_true, if_false] <;> exact hst

/-- Processing a concatenation first processes the prefix. -/
lemma ParseIndexLoop_append (dom : String) :
    ∀ (xs ys : List Decl) (st st' : Indexes),
      ParseIndexLoop dom xs st = .ok st' →
      ParseIndexLoop dom (xs ++ ys) st = ParseIndexLoop dom ys st' := by
  intro xs
  induction xs with
  | nil =>
    intro ys st st' h
    simp only [ParseIndexLoop] at h
    cases h
    simp
  | cons c rest ih =>
    intro ys st st' h
    simp only [ParseIndexLoop] at h
    simp only [List.cons_append, ParseIndexLoop]
    by_cases hres : c.isAPIResource
    · simp only [hres, Bool.not_true, Bool.false_eq_true, if_false] at h ⊢
      cases hb : BuildResource dom c with
      | error e => rw [hb] at h; simp only [except_bind_error] at h; simp at h
      | ok r =>
        rw [hb] at h
        simp only [except_bind_ok] at h ⊢
        exact ih ys _ _ h
    · simp only [hres, Bool.not_false, Bool.false_eq_true, if_true] at h ⊢
      exact ih ys _ _ h

/-- An error on the prefix is an error on the concatenation. -/
lemma ParseIndexLoop_append_error (dom : String) :
    ∀ (xs ys : List Decl) (st : Indexes) (e : FatalErr),
      ParseIndexLoop dom xs st = .error e →
      ParseIndexLoop dom (xs ++ ys) st = .error e := by
  intro xs
  induction xs with
  | nil =>
    intro ys st e h
    simp only [ParseIndexLoop] at h
    cases h
  | cons c rest ih =>
    intro ys st e h
    simp only [ParseIndexLoop] at h
    simp only [List.cons_append, ParseIndexLoop]
    by_cases hres : c.isAPIResource
    · simp only [hres, Bool.not_true, Bool.false_eq_true, if_false] at h ⊢
      cases hb : BuildResource dom c with
      | error e2 =>
        rw [hb] at h
        simp only [except_bind_error] at h ⊢
        exact h
      | ok r =>
        rw [hb] at h
        simp only [except_bind_ok] at h ⊢
        exact ih ys _ _ h
    · simp only [hres, Bool.not_false, Bool.false_eq_true, if_true] at h ⊢
      exact ih ys _ _ h

/-! ### Struct-builder lemmas -/

lemma popSwap_length {α : Type} :
    ∀ {l : List α} {x : α} {rest : List α},
      popSwap l = some (x, rest) → rest.length + 1 = l.length := by
  intro l x rest h
  match l with
  | [] => simp [popSwap] at h
  | [a] =>
    simp only [popSwap, Option.some.injEq, Prod.mk.injEq] at h
    rw [← h.2]
    simp
  | a :: b :: t =>
    simp only [popSwap, Option.some.injEq, Prod.mk.injEq] at h
    rw [← h.2]
    simp [List.length_dropLast]

lemma resolveDecl_name (decls : List Decl) (d : TypeDesc) :
    (resolveDecl decls d).self.name = d.name := by
  unfold resolveDecl
  cases hf : decls.find? (fun t => t.self.name == d.name) with
  | none => rfl
  | some t => simpa using List.find?_some hf

lemma DoType_snd_length (t : Decl) : (DoType t).2.length ≤ t.members.length := by
  simp only [DoType, List.length_map]
  exact List.length_filter_le _ _

lemma processType_name (gc gd : Decl → Bool) (t : Decl) :
    (processType gc gd t).name = t.self.name := by
  simp only [processType, DoType]
  split_ifs <;> rfl

lemma maxMembers_cons (a : Decl) (t : List Decl) :
    maxMembers (a :: t) = max a.members.length (maxMembers t) := rfl

lemma maxMembers_bound {decls : List Decl} {d : Decl} (h : d ∈ decls) :
    d.members.length ≤ maxMembers decls := by
  induction decls with
  | nil => cases h
  | cons a t ih =>
    rw [maxMembers_cons]
    rcases List.mem_cons.mp h with rfl | h'
    · exact le_max_left _ _
    · exact le_trans (ih h') (le_max_right _ _)

lemma length_filter_imp {α : Type} (p q : α → Bool) (h : ∀ x, p x = true → q x = true) :
    ∀ (l : List α), (l.filter p).length ≤ (l.filter q).length := by
  intro l
  induction l with
  | nil => simp
  | cons a t ih =>
    by_cases hp : p a = true
    · rw [List.filter_cons_of_pos hp, List.filter_cons_of_pos (h a hp)]
      simpa using ih
    · rw [List.filter_cons_of_neg (by simpa using hp)]
      by_cases hq : q a = true
      · rw [List.filter_cons_of_pos hq]
        exact le_trans ih (by simp)
      · rw [List.filter_cons_of_neg (by simpa using hq)]
        exact ih

lemma filter_strict_decrease {U : List String} (hU : U.Nodup) {a : String} (ha : a ∈ U)
    {done : List String} (hd : a ∉ done) :
    ((U.filter (fun n => !(a :: done).contains n)).length) + 1 ≤
      (U.filter (fun n => !done.contains n)).length := by
  induction U with
  | nil => cases ha
  | cons b t ih =>
    rcases List.mem_cons.mp ha with heq | ha'
    · subst heq
      rw [@List.filter_cons_of_neg String (fun n => !(a :: done).contains n) a t (by simp),
        @List.filter_cons_of_pos String (fun n => !done.contains n) a t (by simp [hd])]
      simp only [List.length_cons]
      have hmono := length_filter_imp (fun n => !(a :: done).contains n)
        (fun n => !done.contains n) ?side t
      · omega
      case side =>
        intro x hx
        simp at hx ⊢
        exact hx.2
    · have hbne : b ≠ a := fun hba => (List.nodup_cons.mp hU).1 (hba ▸ ha')
      by_cases hpb : b ∈ done
      · rw [@List.filter_cons_of_neg String (fun n => !(a :: done).contains n) b t (by simp [hpb]),
          @List.filter_cons_of_neg String (fun n => !done.contains n) b t (by simp [hpb])]
        exact ih (List.nodup_cons.mp hU).2 ha'
      · rw [@List.filter_cons_of_pos String (fun n => !(a :: done).contains n) b t
            (by simp [hbne, hpb]),
          @List.filter_cons_of_pos String (fun n => !done.contains n) b t (by simp [hpb])]
        simp only [List.length_cons]
        have := ih (List.nodup_cons.mp hU).2 ha'
        omega

lemma mem_declNames {decls : List Decl} {n : String} :
    n ∈ declNames decls ↔ ∃ d ∈ decls, d.self.name = n := by
  simp [declNames, List.mem_dedup, List.mem_map]

/-- The work-list loop completes whenever the fuel covers the measure. -/
lemma ParseStructsLoop_isSome (gc gd : Decl → Bool) (decls : List Decl) :
    ∀ (fuel : Nat) (remaining : List TypeDesc) (done : List String) (structs : List Struct),
      structsMeasure decls remaining done ≤ fuel →
      (ParseStructsLoop gc gd decls fuel remaining done structs).isSome := by
  intro fuel
  induction fuel with
  | zero =>
    intro remaining done structs h
    have hlen : remaining.length = 0 := by
      unfold structsMeasure at h; omega
    have hr : remaining = [] := List.length_eq_zero.mp hlen
    subst hr
    simp [ParseStructsLoop, popSwap]
  | succ fuel ih =>
    intro remaining done structs h
    cases hp : popSwap remaining with
    | none => simp [ParseStructsLoop, hp]
    | some pr =>
      obtain ⟨next, rest⟩ := pr
      have hlen := popSwap_length hp
      by_cases hdone : done.contains next.name = true
      · have hstep : ParseStructsLoop gc gd decls (fuel + 1) remaining done structs
            = ParseStructsLoop gc gd decls fuel rest done structs := by
          simp only [ParseStructsLoop, hp]
          rw [if_pos hdone]
        rw [hstep]
        apply ih
        unfold structsMeasure at h ⊢
        omega
      · have hstep : ParseStructsLoop gc gd decls (fuel + 1) remaining done structs
            = ParseStructsLoop gc gd decls fuel (rest ++ (DoType (resolveDecl decls next)).2)
                (next.name :: done) (structs ++ [processType gc gd (resolveDecl decls next)]) := by
          simp only [ParseStructsLoop, hp]
          rw [if_neg hdone]
        rw [hstep]
        apply ih
        by_cases hmem : next.name ∈ declNames decls
        · have hadd : (DoType (resolveDecl decls next)).2.length ≤ maxMembers decls := by
            refine le_trans (DoType_snd_length _) ?_
            unfold resolveDecl
            cases hf : decls.find? (fun t => t.self.name == next.name) with
            | some t => exact maxMembers_bound (List.mem_of_find?_eq_some hf)
            | none => simp
          have hdec := filter_strict_decrease (List.nodup_dedup _) hmem
            (by simpa using hdone)
          unfold structsMeasure at h ⊢
          rw [List.length_append]
          set M := maxMembers decls with hM
          set c := ((declNames decls).filter (fun n => !done.contains n)).length with hc
          set c2 := ((declNames decls).filter
            (fun n => !((next.name :: done).contains n))).length with hc2
          have hmul : (M + 1) * c2 + (M + 1) ≤ (M + 1) * c := by
            calc (M + 1) * c2 + (M + 1) = (M + 1) * (c2 + 1) := by ring
              _ ≤ (M + 1) * c := Nat.mul_le_mul_left _ hdec
          omega
        · have hnone : decls.find? (fun t => t.self.name == next.name) = none := by
            rw [List.find?_eq_none]
            intro x hx
            simp only [beq_iff_eq]
            intro hxn
            exact hmem (mem_declNames.mpr ⟨x, hx, hxn⟩)
          have hadd : (DoType (resolveDecl decls next)).2 = [] := by
            unfold resolveDecl
            rw [hnone]
            simp [DoType]
          have hc : ((declNames decls).filter (fun n => !((next.name :: done).contains n))).length
              = ((declNames decls).filter (fun n => !done.contains n)).length := by
            congr 1
            apply List.filter_congr
            intro n hn
            have hne : n ≠ next.name := fun hnn => hmem (hnn ▸ hn)
            simp [hne]
          unfold structsMeasure at h ⊢
          rw [hadd, List.append_nil, hc]
          omega

/-- The work-list loop emits at most one struct per distinct bare name:
the emitted names extend an already-deduplicated accumulator whose names
are all marked done. -/
lemma ParseStructsLoop_nodup (gc gd : Decl → Bool) (decls : List Decl) :
    ∀ (fuel : Nat) (remaining : List TypeDesc) (done : List String)
      (structs out : List Struct),
      ParseStructsLoop gc gd decls fuel remaining done structs = some out →
      (structs.map Struct.name).Nodup →
      (∀ n ∈ structs.map Struct.name, n ∈ done) →
      (out.map Struct.name).Nodup := by
  intro fuel
  induction fuel with
  | zero =>
    intro remaining done structs out h hnod hdone
    cases hp : popSwap remaining with
    | none =>
      rw [show ParseStructsLoop gc gd decls 0 remaining done structs = some structs by
        simp [ParseStructsLoop, hp]] at h
      cases h
      exact hnod
    | some pr =>
      rw [show ParseStructsLoop gc gd decls 0 remaining done structs = none by
        simp [ParseStructsLoop, hp]] at h
      cases h
  | succ fuel ih =>
    intro remaining done structs out h hnod hdone
    cases hp : popSwap remaining with
    | none =>
      rw [show ParseStructsLoop gc gd decls (fuel + 1) remaining done structs = some structs by
        simp [ParseStructsLoop, hp]] at h
      cases h
      exact hnod
    | some pr =>
      obtain ⟨next, rest⟩ := pr
      by_cases hdn : done.contains next.name = true
      · rw [show ParseStructsLoop gc gd decls (fuel + 1) remaining done structs
            = ParseStructsLoop gc gd decls fuel rest done structs by
          simp only [ParseStructsLoop, hp]; rw [if_pos hdn]] at h
        exact ih _ _ _ _ h hnod hdone
      · rw [show ParseStructsLoop gc gd decls (fuel + 1) remaining done structs
            = ParseStructsLoop gc gd decls fuel (rest ++ (DoType (resolveDecl decls next)).2)
                (next.name :: done) (structs ++ [processType gc gd (resolveDecl decls next)]) by
          simp only [ParseStructsLoop, hp]; rw [if_neg hdn]] at h
        refine ih _ _ _ _ h ?_ ?_
        · rw [List.map_append]
          simp only [List.map_cons, List.map_nil]
          refine (List.Perm.nodup_iff (List.perm_append_singleton _ _)).mpr ?_
          refine List.nodup_cons.mpr ⟨?_, hnod⟩
          rw [processType_name, resolveDecl_name]
          intro hmem
          exact hdn (by simpa using hdone _ hmem)
        · intro n hn
          rw [List.map_append, List.mem_append] at hn
          rcases hn with hn | hn
          · exact List.mem_cons_of_mem _ (hdone n hn)
          · simp only [List.map_cons, List.map_nil, List.mem_singleton] at hn
            rw [hn, processType_name, resolveDecl_name]
            exact List.mem_cons_self _ _

lemma BuildResource_gvk {dom : String} {c : Decl} {r : APIResource}
    (h : BuildResource dom c = .ok r) :
    r.group = c.group ∧ r.version = c.version ∧ r.kind = c.kind := by
  obtain ⟨r0, hm, _, _, hg, hv, hk⟩ := BuildResource_spec h
  obtain ⟨rt, _, _, _, hg0, hv0, hk0, _, _, _⟩ := MakeAPIResource_spec hm
  exact ⟨hg.trans hg0, hv.trans hv0, hk.trans hk0⟩

lemma perm_len_le_one_eq {α : Type} {l1 l2 : List α} (h : l1.Perm l2) (hl : l1.length ≤ 1) :
    l1 = l2 := by
  match l1, hl with
  | [], _ => rw [(List.Perm.eq_nil h.symm)]
  | [a], _ => exact (List.perm_singleton.mp h.symm).symm

lemma lastValD_middle_miss {k e : String} (pre post : List String) (d : String)
    (h : kvOf k e = none) :
    lastValD k (pre ++ e :: post) d = lastValD k (pre ++ post) d := by
  simp only [lastValD, List.filterMap_append, List.filterMap_cons, h]

/-! ### Claim theorems -/

/-- C1: after `ParseIndex`, a resource whose `+resource` tag carries no
strategy gets the default strategy `<group>.<Kind>Strategy`, and every
resource's status strategy is its strategy with a trailing `Strategy`
suffix replaced by `StatusStrategy` (strip the suffix, append
`StatusStrategy`); the derivation holds for every stored resource. -/
theorem c1_strategy_defaulting :
    (∀ (dom : String) (c : Decl) (rt : ResourceTags) (r : APIResource),
      ParseResourceTag c.resourceTag = .ok rt → rt.strategy = "" →
      MakeAPIResource dom c = .ok r →
      r.strategy = c.group ++ "." ++ c.kind ++ "Strategy") ∧
    (∀ (dom : String) (c : Decl) (r : APIResource),
      MakeAPIResource dom c = .ok r →
      r.statusStrategy = goTrimSuffix r.strategy "Strategy" ++ "StatusStrategy") ∧
    (∀ (dom : String) (order : List Decl) (st : Indexes) (g v k : String) (r : APIResource),
      ParseIndex dom order = .ok st → st.byGroupVersionKind g v k = some r →
      r.statusStrategy = goTrimSuffix r.strategy "Strategy" ++ "StatusStrategy") := by
  refine ⟨?_, ?_, ?_⟩
  · intro dom c rt r hp hempty hmk
    obtain ⟨rt2, hp2, hstrat, _⟩ := MakeAPIResource_spec hmk
    rw [hp] at hp2
    obtain rfl : rt = rt2 := Except.ok.inj hp2
    rw [hstrat, hempty]
    simp
  · intro dom c r hmk
    obtain ⟨rt, _, _, hstatus, _⟩ := MakeAPIResource_spec hmk
    exact hstatus
  · intro dom order st g v k r hidx hr
    unfold ParseIndex at hidx
    refine ParseIndexLoop_stored dom
      (fun r => r.statusStrategy = goTrimSuffix r.strategy "Strategy" ++ "StatusStrategy")
      ?_ order _ st hidx ?_ g v k r hr
    · intro c2 r2 hb
      obtain ⟨r0, hm, hstrat, hstatus, _⟩ := BuildResource_spec hb
      obtain ⟨rt, _, _, hstatus0, _⟩ := MakeAPIResource_spec hm
      rw [hstatus, hstrat, hstatus0]
    · intro g2 v2 k2 r2 hr2
      cases hr2

/-- C1 witness: the sample resource tag `path=widgets` has no strategy
key, the built resource defaults to `core.WidgetStrategy`, and its status
strategy is the derived form; a stored resource of the sample indexes
satisfies the same derivation. -/
theorem c1_strategy_defaulting_witness :
    ParseResourceTag sampleWidgetDecl.resourceTag
      = .ok { resource := "widgets", rest := "", strategy := "" } ∧
    MakeAPIResource "k8s.io" sampleWidgetDecl = .ok sampleMadeResource ∧
    sampleMadeResource.strategy
      = sampleWidgetDecl.group ++ "." ++ sampleWidgetDecl.kind ++ "Strategy" ∧
    sampleMadeResource.statusStrategy
      = goTrimSuffix sampleMadeResource.strategy "Strategy" ++ "StatusStrategy" ∧
    (ParseIndex "k8s.io" ([sampleWidget2Decl] ++ [sampleWidgetDecl]) = .ok sampleIndexes ∧
      sampleIndexes.byGroupVersionKind "core" "v1" "Widget" = some sampleStoredResource ∧
      sampleStoredResource.statusStrategy
        = goTrimSuffix sampleStoredResource.strategy "Strategy" ++ "StatusStrategy") :=
  ⟨rfl, rfl,
    c1_strategy_defaulting.1 "k8s.io" sampleWidgetDecl _ _ rfl rfl rfl,
    c1_strategy_defaulting.2.1 "k8s.io" sampleWidgetDecl _ rfl,
    rfl, rfl,
    c1_strategy_defaulting.2.2 "k8s.io" ([sampleWidget2Decl] ++ [sampleWidgetDecl])
      sampleIndexes "core" "v1" "Widget" sampleStoredResource rfl rfl⟩

/-- C5: in each of the three tag parsers, a comma-separated element that
does not split on `=` into exactly two parts is a fatal key/value error
carrying the raw tag string, and a tag body all of whose elements do
split into two parts parses into a record without failing. -/
theorem c5_malformed_tags :
    (∀ tag : String,
      ((∃ e ∈ goSplit tag ",", (goSplit e "=").length ≠ 2) →
        ParseResourceTag tag = .error (.resourceTagKV tag)) ∧
      ((∀ e ∈ goSplit tag ",", (goSplit e "=").length = 2) →
        ∃ rt, ParseResourceTag tag = .ok rt)) ∧
    (∀ tag : String,
      ((∃ e ∈ goSplit tag ",", (goSplit e "=").length ≠ 2) →
        ParseControllerTag tag = .error (.controllerTagKV tag)) ∧
      ((∀ e ∈ goSplit tag ",", (goSplit e "=").length = 2) →
        ∃ ct, ParseControllerTag tag = .ok ct)) ∧
    (∀ (c : APIResource) (tag : String),
      ((∃ e ∈ goSplit tag ",", (goSplit e "=").length ≠ 2) →
        ParseSubresourceTag c tag = .error (.subresourceTagKV tag)) ∧
      ((∀ e ∈ goSplit tag ",", (goSplit e "=").length = 2) →
        ∃ t, ParseSubresourceTag c tag = .ok t)) := by
  refine ⟨fun tag => ⟨?_, ?_⟩, fun tag => ⟨?_, ?_⟩, fun c tag => ⟨?_, ?_⟩⟩
  · exact fun h => ParseResourceElems_err tag _ _ h
  · exact fun h => ⟨_, ParseResourceElems_wf tag _ _ h⟩
  · exact fun h => ParseControllerElems_err tag _ _ h
  · exact fun h => ⟨_, ParseControllerElems_wf tag _ _ h⟩
  · exact fun h => ParseSubElems_err c tag _ _ h
  · exact fun h => ⟨_, ParseSubElems_wf c tag _ _ h⟩

/-- C5 witness: concrete malformed and well-formed tag bodies for the
three parsers. -/
theorem c5_malformed_tags_witness :
    ParseResourceTag "path=widgets,bad" = .error (.resourceTagKV "path=widgets,bad") ∧
    (∃ rt, ParseResourceTag "path=widgets,unknown=1" = .ok rt) ∧
    ParseControllerTag "group=core,bad" = .error (.controllerTagKV "group=core,bad") ∧
    (∃ ct, ParseControllerTag "group=core,kind=Widget" = .ok ct) ∧
    ParseSubresourceTag sampleResource "path=widgets/scale,bad"
      = .error (.subresourceTagKV "path=widgets/scale,bad") ∧
    (∃ t, ParseSubresourceTag sampleResource "request=ScaleRequest,path=widgets/scale" = .ok t) :=
  ⟨(c5_malformed_tags.1 "path=widgets,bad").1 (by decide),
    (c5_malformed_tags.1 "path=widgets,unknown=1").2 (by decide),
    (c5_malformed_tags.2.1 "group=core,bad").1 (by decide),
    (c5_malformed_tags.2.1 "group=core,kind=Widget").2 (by decide),
    (c5_malformed_tags.2.2 sampleResource "path=widgets/scale,bad").1 (by decide),
    (c5_malformed_tags.2.2 sampleResource "request=ScaleRequest,path=widgets/scale").2 (by decide)⟩

/-- C9: the subresource parser recognizes only request/rest/path, so the
parsed record's `Kind` stays empty, and every descriptor produced by
`GetSubresources` copies that empty `Kind` unchanged. -/
theorem c9_subresource_kind_empty :
    (∀ (c : APIResource) (tag : String) (t : SubresourceTags),
      ParseSubresourceTag c tag = .ok t → t.kind = "") ∧
    (∀ (dom : String) (c : APIResource) (ds : List String)
      (out : List (String × APISubresource)) (p : String) (sr : APISubresource),
      GetSubresources dom c ds = .ok out → (p, sr) ∈ out → sr.kind = "") := by
  refine ⟨?_, ?_⟩
  · intro c tag t hp
    exact ParseSubElems_kind c tag _ _ _ hp
  · intro dom c ds out p sr hok hmem
    refine GetSubresourcesLoop_kind dom c ds [] out hok ?_ p sr hmem
    intro p2 sr2 h2
    cases h2

/-- C9 witness: the sample directive parses with an empty kind, and the
produced descriptor map carries an empty kind. -/
theorem c9_subresource_kind_empty_witness :
    ParseSubresourceTag sampleResource dupDirectiveA = .ok sampleLocalTags ∧
    sampleLocalTags.kind = "" ∧
    GetSubresources "k8s.io" sampleResource [dupDirectiveA] = .ok [("scale", dupExisting)] ∧
    dupExisting.kind = "" :=
  ⟨rfl,
    c9_subresource_kind_empty.1 sampleResource dupDirectiveA sampleLocalTags rfl,
    rfl,
    c9_subresource_kind_empty.2 "k8s.io" sampleResource [dupDirectiveA]
      [("scale", dupExisting)] "scale" dupExisting rfl (List.mem_singleton.mpr rfl)⟩

/-- C10: in each of the three tag parsers, on a well-formed tag body each
recognized key's record field holds the value determined by the last
occurrence of that key (elements are processed left to right and each
assignment overwrites the previous one); for the subresource `path` key
the stored value is the stripped form of the last occurrence. -/
theorem c10_last_occurrence_wins :
    (∀ (tag : String) (es : List String),
      goSplit tag "," = es → (∀ e ∈ es, (goSplit e "=").length = 2) →
      ParseResourceTag tag
        = .ok { resource := lastValD "path" es "", rest := lastValD "rest" es "",
                strategy := lastValD "strategy" es "" }) ∧
    (∀ (tag : String) (es : List String),
      goSplit tag "," = es → (∀ e ∈ es, (goSplit e "=").length = 2) →
      ParseControllerTag tag
        = .ok { gvk := { group := lastValD "group" es "", version := lastValD "version" es "",
                         kind := lastValD "kind" es "" },
                resource := lastValD "resource" es "" }) ∧
    (∀ (c : APIResource) (tag : String) (es : List String),
      goSplit tag "," = es → (∀ e ∈ es, (goSplit e "=").length = 2) →
      ParseSubresourceTag c tag
        = .ok { path := lastValW (fun v => goReplaceAll v (c.resource ++ "/") "") "path" es "",
                kind := "", requestKind := lastValD "request" es "",
                rest := lastValD "rest" es "" }) := by
  refine ⟨?_, ?_, ?_⟩
  · intro tag es hsplit h
    unfold ParseResourceTag
    rw [hsplit]
    exact ParseResourceElems_wf tag es _ h
  · intro tag es hsplit h
    unfold ParseControllerTag
    rw [hsplit]
    exact ParseControllerElems_wf tag es _ h
  · intro c tag es hsplit h
    unfold ParseSubresourceTag
    rw [hsplit]
    exact ParseSubElems_wf c tag es _ h

/-- C10 witness: duplicated keys in each parser keep the last value. -/
theorem c10_last_occurrence_wins_witness :
    ParseResourceTag "path=a,path=b"
      = .ok { resource := "b", rest := "", strategy := "" } ∧
    ParseControllerTag "kind=A,kind=B"
      = .ok { gvk := { group := "", version := "", kind := "B" }, resource := "" } ∧
    ParseSubresourceTag sampleResource "rest=R1,rest=R2"
      = .ok { path := "", kind := "", requestKind := "", rest := "R2" } :=
  ⟨(c10_last_occurrence_wins.1 "path=a,path=b" _ rfl (by decide)).trans (by rfl),
    (c10_last_occurrence_wins.2.1 "kind=A,kind=B" _ rfl (by decide)).trans (by rfl),
    (c10_last_occurrence_wins.2.2 sampleResource "rest=R1,rest=R2" _ rfl
      (by decide)).trans (by rfl)⟩

/-- C3 counterexample: at a concrete pair of colliding directives, the
duplicate-path error carries the colliding path, the previously
registered descriptor, and the second directive string — but not the
first directive string, so the error does not name both conflicting
directive strings as the claim states. -/
theorem c3_counterexample :
    GetSubresources "k8s.io" sampleResource [dupDirectiveA, dupDirectiveB]
      = .error (.duplicatePath "scale" dupExisting dupDirectiveB) ∧
    dupDirectiveA ∉ errStrings (.duplicatePath "scale" dupExisting dupDirectiveB) :=
  ⟨rfl, by decide⟩

/-- C3 (amended): two subresource directives on the same resource whose
resolved paths are equal make `GetSubresources` fail fatally with a
duplicate-path error naming the colliding path, the descriptor already
registered for the first directive, and the second directive string; no
subresource map is produced (the result is the error alone). -/
theorem c3_duplicate_path :
    ∀ (dom : String) (c : APIResource) (d1 d2 : String) (t1 t2 : SubresourceTags),
      ParseSubresourceTag c d1 = .ok t1 → ParseSubresourceTag c d2 = .ok t2 →
      (MakeSubresource dom c t1).path = (MakeSubresource dom c t2).path →
      GetSubresources dom c [d1, d2]
        = .error (.duplicatePath (MakeSubresource dom c t2).path
            (MakeSubresource dom c t1) d2) ∧
      (MakeSubresource dom c t2).path
        ∈ errStrings (.duplicatePath (MakeSubresource dom c t2).path
            (MakeSubresource dom c t1) d2) ∧
      d2 ∈ errStrings (.duplicatePath (MakeSubresource dom c t2).path
            (MakeSubresource dom c t1) d2) := by
  intro dom c d1 d2 t1 t2 h1 h2 hpath
  refine ⟨?_, by simp [errStrings], by simp [errStrings]⟩
  unfold GetSubresources
  simp only [GetSubresourcesLoop, h1, h2, except_bind_ok, lookupPath]
  rw [if_pos hpath]

/-- C3 witness: the amended statement at the concrete colliding pair. -/
theorem c3_duplicate_path_witness :
    GetSubresources "k8s.io" sampleResource [dupDirectiveA, dupDirectiveB]
      = .error (.duplicatePath (MakeSubresource "k8s.io" sampleResource sampleFooTags).path
          (MakeSubresource "k8s.io" sampleResource sampleLocalTags) dupDirectiveB) ∧
    (MakeSubresource "k8s.io" sampleResource sampleFooTags).path
      ∈ errStrings (.duplicatePath (MakeSubresource "k8s.io" sampleResource sampleFooTags).path
          (MakeSubresource "k8s.io" sampleResource sampleLocalTags) dupDirectiveB) ∧
    dupDirectiveB
      ∈ errStrings (.duplicatePath (MakeSubresource "k8s.io" sampleResource sampleFooTags).path
          (MakeSubresource "k8s.io" sampleResource sampleLocalTags) dupDirectiveB) :=
  c3_duplicate_path "k8s.io" sampleResource dupDirectiveA dupDirectiveB
    sampleLocalTags sampleFooTags rfl rfl rfl

/-- C4: a well-formed subresource directive parses its path as the raw
value with every occurrence of `<plural>/` removed and keeps a dot-free
request type verbatim with an empty import; a package-qualified request
type splits at its last dot into an import path and a bare name, the
request is rewritten `<base of import path>.<bare name>`, and the import
path is recorded on the descriptor. -/
theorem c4_request_type_resolution :
    (∀ (c : APIResource) (tag e1 e2 e3 q v w : String),
      goSplit tag "," = [e1, e2, e3] →
      goSplit e1 "=" = ["request", q] →
      goSplit e2 "=" = ["path", v] →
      goSplit e3 "=" = ["rest", w] →
      ParseSubresourceTag c tag
        = .ok { path := goReplaceAll v (c.resource ++ "/") "", kind := "",
                requestKind := q, rest := w }) ∧
    (∀ (dom : String) (c : APIResource) (t : SubresourceTags),
      goContainsSub t.requestKind "." = false →
      (MakeSubresource dom c t).request = t.requestKind ∧
      (MakeSubresource dom c t).importPackage = "") ∧
    (∀ (dom : String) (c : APIResource) (t : SubresourceTags),
      goContainsSub t.requestKind "." = true →
      ∃ imp bare : String,
        t.requestKind = imp ++ "." ++ bare ∧
        goContainsSub bare "." = false ∧
        (MakeSubresource dom c t).request = goFilepathBase imp ++ "." ++ bare ∧
        (MakeSubresource dom c t).importPackage = imp) := by
  refine ⟨?_, ?_, ?_⟩
  · intro c tag e1 e2 e3 q v w h0 h1 h2 h3
    unfold ParseSubresourceTag
    rw [h0]
    simp only [ParseSubElems, h1, h2, h3]
    rfl
  · intro dom c t hc
    have hip : IsInPackage t = true := by unfold IsInPackage; rw [hc]; rfl
    unfold MakeSubresource
    rw [hip]
    exact ⟨rfl, rfl⟩
  · intro dom c t hc
    have hdot : '.' ∈ t.requestKind.data := by
      have hc2 : subListOf ['.'] t.requestKind.data = true := hc
      exact (subListOf_single '.' _).mp hc2
    obtain ⟨i, hi⟩ := (mem_iff_lastIdx '.' _).mp hdot
    obtain ⟨hdec, hnot⟩ := listLastIdx_decomp hi
    have hip : IsInPackage t = false := by unfold IsInPackage; rw [hc]; rfl
    refine ⟨⟨t.requestKind.data.take i⟩, ⟨t.requestKind.data.drop (i + 1)⟩, ?_, ?_, ?_, ?_⟩
    · apply String.ext
      show t.requestKind.data
        = t.requestKind.data.take i ++ ['.'] ++ t.requestKind.data.drop (i + 1)
      rw [List.append_assoc]
      exact hdec
    · show subListOf ['.'] (t.requestKind.data.drop (i + 1)) = false
      cases hb : subListOf ['.'] (t.requestKind.data.drop (i + 1)) with
      | true => exact absurd ((subListOf_single '.' _).mp hb) hnot
      | false => rfl
    · show (MakeSubresource dom c t).request = _
      unfold MakeSubresource GetNameAndImport
      rw [hip, hi]
      rfl
    · show (MakeSubresource dom c t).importPackage = _
      unfold MakeSubresource GetNameAndImport
      rw [hip, hi]
      rfl

/-- C4 witness: the end-to-end scenario directive and a package-qualified
request type. -/
theorem c4_request_type_resolution_witness :
    ParseSubresourceTag sampleResource dupDirectiveA = .ok sampleLocalTags ∧
    (MakeSubresource "k8s.io" sampleResource sampleLocalTags).request = "ScaleRequest" ∧
    (MakeSubresource "k8s.io" sampleResource sampleLocalTags).importPackage = "" ∧
    (∃ imp bare : String,
      sampleImportedTags.requestKind = imp ++ "." ++ bare ∧
      goContainsSub bare "." = false ∧
      (MakeSubresource "k8s.io" sampleResource sampleImportedTags).request
        = goFilepathBase imp ++ "." ++ bare ∧
      (MakeSubresource "k8s.io" sampleResource sampleImportedTags).importPackage = imp) :=
  ⟨c4_request_type_resolution.1 sampleResource dupDirectiveA
      "request=ScaleRequest" "path=widgets/scale" "rest=ScaleREST"
      "ScaleRequest" "widgets/scale" "ScaleREST" rfl rfl rfl rfl,
    (c4_request_type_resolution.2.1 "k8s.io" sampleResource sampleLocalTags rfl).1,
    (c4_request_type_resolution.2.1 "k8s.io" sampleResource sampleLocalTags rfl).2,
    c4_request_type_resolution.2.2 "k8s.io" sampleResource sampleImportedTags rfl⟩

/-- C6: after `ParseIndex`, the two dual indices hold the same content —
an entry sits at `ByGroupKindVersion[g][k][v]` exactly when it sits at
`ByGroupVersionKind[g][v][k]` — and a later declaration with the same
group/version/kind silently overwrites the earlier entry in both indices
(the run stays successful and both lookups yield the later resource). -/
theorem c6_dual_indices :
    (∀ (dom : String) (order : List Decl) (st : Indexes),
      ParseIndex dom order = .ok st →
      ∀ g v k r, st.byGroupKindVersion g k v = some r ↔ st.byGroupVersionKind g v k = some r) ∧
    (∀ (dom : String) (ds : List Decl) (d : Decl) (st : Indexes),
      d.isAPIResource = true →
      ParseIndex dom (ds ++ [d]) = .ok st →
      ∃ r, BuildResource dom d = .ok r ∧
        st.byGroupVersionKind d.group d.version d.kind = some r ∧
        st.byGroupKindVersion d.group d.kind d.version = some r) := by
  constructor
  · intro dom order st h
    unfold ParseIndex at h
    refine ParseIndexLoop_transp dom order _ st h ?_
    intro g v k r
    simp
  · intro dom ds d st hres h
    unfold ParseIndex at h
    cases hpre : ParseIndexLoop dom ds
        { byGroupKindVersion := fun _ _ _ => none, byGroupVersionKind := fun _ _ _ => none,
          subByGroupVersionKind := fun _ _ _ => none } with
    | error e =>
      rw [ParseIndexLoop_append_error dom ds [d] _ e hpre] at h
      cases h
    | ok st1 =>
      rw [ParseIndexLoop_append dom ds [d] _ st1 hpre] at h
      simp only [ParseIndexLoop] at h
      simp only [hres, Bool.not_true, Bool.false_eq_true, if_false] at h
      cases hb : BuildResource dom d with
      | error e => rw [hb] at h; simp only [except_bind_error] at h; simp at h
      | ok r =>
        rw [hb] at h
        simp only [except_bind_ok, ParseIndexLoop] at h
        obtain ⟨hg, hv, hk⟩ := BuildResource_gvk hb
        have h2 := Except.ok.inj h
        subst h2
        refine ⟨r, rfl, ?_, ?_⟩
        · show insert3 _ r.group r.version r.kind r d.group d.version d.kind = some r
          unfold insert3
          rw [if_pos ⟨hg.symm, hv.symm, hk.symm⟩]
        · show insert3 _ r.group r.kind r.version r d.group d.kind d.version = some r
          unfold insert3
          rw [if_pos ⟨hg.symm, hk.symm, hv.symm⟩]

/-- C6 witness: two sample declarations with the same group/version/kind;
the indexes agree at the triple and hold the later declaration's
resource. -/
theorem c6_dual_indices_witness :
    ParseIndex "k8s.io" ([sampleWidget2Decl] ++ [sampleWidgetDecl]) = .ok sampleIndexes ∧
    (sampleIndexes.byGroupKindVersion "core" "Widget" "v1" = some sampleStoredResource ↔
      sampleIndexes.byGroupVersionKind "core" "v1" "Widget" = some sampleStoredResource) ∧
    (∃ r, BuildResource "k8s.io" sampleWidgetDecl = .ok r ∧
      sampleIndexes.byGroupVersionKind "core" "v1" "Widget" = some r ∧
      sampleIndexes.byGroupKindVersion "core" "Widget" "v1" = some r) :=
  ⟨rfl,
    c6_dual_indices.1 "k8s.io" ([sampleWidget2Decl] ++ [sampleWidgetDecl]) sampleIndexes rfl
      "core" "v1" "Widget" sampleStoredResource,
    c6_dual_indices.2 "k8s.io" [sampleWidget2Decl] sampleWidgetDecl sampleIndexes rfl rfl⟩

/-- C7: the `+resource=` parser discards well-formed elements with
unrecognized keys without failing, and on a well-formed tag in which each
recognized key appears at most once the parsed record is invariant under
permutation of the comma-separated elements. -/
theorem c7_resource_tag_key_order :
    (∀ (tag tag2 : String) (pre post : List String) (e k v : String),
      goSplit tag "," = pre ++ e :: post →
      goSplit tag2 "," = pre ++ post →
      goSplit e "=" = [k, v] →
      k ∉ (["rest", "path", "strategy"] : List String) →
      (∀ x ∈ pre ++ post, (goSplit x "=").length = 2) →
      ParseResourceTag tag = ParseResourceTag tag2) ∧
    (∀ (tag1 tag2 : String) (es1 es2 : List String),
      goSplit tag1 "," = es1 → goSplit tag2 "," = es2 →
      es1.Perm es2 →
      (∀ e ∈ es1, (goSplit e "=").length = 2) →
      (∀ k ∈ (["rest", "path", "strategy"] : List String),
        (es1.filterMap (kvOf k)).length ≤ 1) →
      ParseResourceTag tag1 = ParseResourceTag tag2) := by
  constructor
  · intro tag tag2 pre post e k v h1 h2 hkv hk hw
    have hw1 : ∀ x ∈ pre ++ e :: post, (goSplit x "=").length = 2 := by
      intro x hx
      rcases List.mem_append.mp hx with hx' | hx'
      · exact hw x (List.mem_append.mpr (Or.inl hx'))
      · rcases List.mem_cons.mp hx' with rfl | hx2
        · rw [hkv]; rfl
        · exact hw x (List.mem_append.mpr (Or.inr hx2))
    have hnone : ∀ key, key ∈ (["rest", "path", "strategy"] : List String) →
        kvOf key e = none := by
      intro key hkey
      rw [kvOf_eq hkv]
      refine if_neg ?_
      intro hEq
      exact hk (by rw [hEq]; exact hkey)
    unfold ParseResourceTag
    rw [h1, h2, ParseResourceElems_wf tag _ _ hw1, ParseResourceElems_wf tag2 _ _ hw,
      lastValD_middle_miss pre post _ (hnone "path" (by decide)),
      lastValD_middle_miss pre post _ (hnone "rest" (by decide)),
      lastValD_middle_miss pre post _ (hnone "strategy" (by decide))]
  · intro tag1 tag2 es1 es2 h1 h2 hperm hw1 honce
    have hw2 : ∀ e ∈ es2, (goSplit e "=").length = 2 :=
      fun e he => hw1 e (hperm.mem_iff.mpr he)
    have hfm : ∀ key, key ∈ (["rest", "path", "strategy"] : List String) →
        es1.filterMap (kvOf key) = es2.filterMap (kvOf key) := by
      intro key hkey
      exact perm_len_le_one_eq (hperm.filterMap (kvOf key)) (honce key hkey)
    unfold ParseResourceTag
    rw [h1, h2, ParseResourceElems_wf tag1 _ _ hw1, ParseResourceElems_wf tag2 _ _ hw2]
    simp only [lastValD]
    rw [hfm "path" (by decide), hfm "rest" (by decide), hfm "strategy" (by decide)]

/-- C7 witness: dropping a well-formed unknown-key element and swapping
two recognized elements leave the parsed record unchanged. -/
theorem c7_resource_tag_key_order_witness :
    ParseResourceTag "path=a,unknown=1,rest=b" = ParseResourceTag "path=a,rest=b" ∧
    ParseResourceTag "path=a,rest=b" = ParseResourceTag "rest=b,path=a" :=
  ⟨c7_resource_tag_key_order.1 "path=a,unknown=1,rest=b" "path=a,rest=b"
      ["path=a"] ["rest=b"] "unknown=1" "unknown" "1" rfl rfl rfl (by decide) (by decide),
    c7_resource_tag_key_order.2 "path=a,rest=b" "rest=b,path=a"
      ["path=a", "rest=b"] ["rest=b", "path=a"] rfl rfl (by decide) (by decide) (by decide)⟩

/-- C2: the struct work-list terminates on every finite declaration
universe (the loop completes within its measure's fuel); it emits at most
one `Struct` per distinct bare type name; a popped type whose bare name
was already visited is skipped without producing a `Struct`; and
flattening a type whose members are all primitive or cross-group
enqueues no further work. -/
theorem c2_struct_worklist :
    (∀ (gc gd : Decl → Bool) (decls : List Decl) (seed : List TypeDesc),
      (ParseStructs gc gd decls seed).isSome) ∧
    (∀ (gc gd : Decl → Bool) (decls : List Decl) (seed : List TypeDesc) (out : List Struct),
      ParseStructs gc gd decls seed = some out → (out.map Struct.name).Nodup) ∧
    (∀ (gc gd : Decl → Bool) (decls : List Decl) (fuel : Nat) (remaining rest : List TypeDesc)
      (next : TypeDesc) (done : List String) (structs : List Struct),
      popSwap remaining = some (next, rest) → done.contains next.name = true →
      ParseStructsLoop gc gd decls (fuel + 1) remaining done structs
        = ParseStructsLoop gc gd decls fuel rest done structs) ∧
    (∀ t : Decl, (∀ m ∈ t.members, m.type.primitive = true ∨ m.type.group ≠ t.self.group) →
      (DoType t).2 = []) := by
  refine ⟨?_, ?_, ?_, ?_⟩
  · intro gc gd decls seed
    exact ParseStructsLoop_isSome gc gd decls _ seed [] [] (le_refl _)
  · intro gc gd decls seed out h
    exact ParseStructsLoop_nodup gc gd decls _ seed [] [] out h (by simp) (by simp)
  · intro gc gd decls fuel remaining rest next done structs hp hdn
    simp only [ParseStructsLoop, hp]
    rw [if_pos hdn]
  · intro t h
    have hfil : t.members.filter (fun m => !m.type.primitive && m.type.group == t.self.group)
        = [] := by
      rw [List.filter_eq_nil_iff]
      intro m hm
      rcases h m hm with hp | hg
      · simp [hp]
      · simp [hg]
    simp only [DoType, hfil, List.map_nil]

/-- C2 witness: the sample universe contains a by-name reference cycle
(`Widget` ↔ `WidgetStatus`); the loop still completes, emits distinct
names, skips an already-visited pop, and a cross-group-only type
enqueues nothing. -/
theorem c2_struct_worklist_witness :
    (ParseStructs sampleGenClient sampleGenDeepCopy sampleDecls [sampleWidgetDesc]).isSome ∧
    ParseStructs sampleGenClient sampleGenDeepCopy sampleDecls [sampleWidgetDesc]
      = some sampleStructsOut ∧
    (sampleStructsOut.map Struct.name).Nodup ∧
    ParseStructsLoop sampleGenClient sampleGenDeepCopy sampleDecls 1 [sampleWidgetDesc]
        ["Widget"] []
      = ParseStructsLoop sampleGenClient sampleGenDeepCopy sampleDecls 0 [] ["Widget"] [] ∧
    (DoType sampleLeafDecl).2 = [] :=
  ⟨c2_struct_worklist.1 sampleGenClient sampleGenDeepCopy sampleDecls [sampleWidgetDesc],
    rfl,
    c2_struct_worklist.2.1 sampleGenClient sampleGenDeepCopy sampleDecls [sampleWidgetDesc]
      sampleStructsOut rfl,
    c2_struct_worklist.2.2.1 sampleGenClient sampleGenDeepCopy sampleDecls 0
      [sampleWidgetDesc] [] sampleWidgetDesc ["Widget"] [] rfl rfl,
    c2_struct_worklist.2.2.2 sampleLeafDecl (by decide)⟩

/-- C8: flattening a type with one same-package member and one member of
the shared metadata package `k8s.io/apimachinery/pkg/apis/meta/v1` yields
two fields — the same-package field keeps the bare type name with an
empty unversioned import, its type is enqueued for further flattening
(being non-primitive and same-group), and the metadata field gets the
`metav1` alias import with the versioned type kept as
`metav1.<TypeName>`. -/
theorem c8_dotype_metadata :
    ∀ (t : Decl) (m1 m2 : Member),
      t.members = [m1, m2] → t.commentLines = [] →
      m1.embedded = false → m2.embedded = false →
      m1.type.pkg = t.self.pkg → m1.type.primitive = false →
      m1.type.group = t.self.group →
      m2.type.pkg = "k8s.io/apimachinery/pkg/apis/meta/v1" →
      t.self.pkg ≠ "k8s.io/apimachinery/pkg/apis/meta/v1" →
      goSplit (goFilepathBase m2.type.str) "." = ["v1", m2.type.name] →
      m2.type.group ≠ t.self.group →
      DoType t =
        ({ name := t.self.name, genClient := false, genDeepCopy := false,
           genUnversioned := true,
           fields := [
             { name := m1.name, versionedPackage := m1.type.pkg,
               unversionedImport := "", unversionedType := m1.type.name },
             { name := m2.name, versionedPackage := m2.type.pkg,
               unversionedImport := "metav1 \"k8s.io/apimachinery/pkg/apis/meta/v1\"",
               unversionedType := "metav1." ++ m2.type.name } ] },
         [m1.type]) := by
  intro t m1 m2 hm hc h1e h2e h1p h1prim h1g h2p hself hsplit h2g
  obtain ⟨n1m, e1m, ⟨n1, p1, s1, el1, pr1, g1⟩⟩ := m1
  obtain ⟨n2m, e2m, ⟨n2, p2, s2, el2, pr2, g2⟩⟩ := m2
  dsimp only at h1e h2e h1p h1prim h1g h2p hsplit h2g
  subst h1e h2e h1p h1prim h1g h2p
  unfold DoType
  rw [hm, hc]
  simp [MemberField, hsplit, hself, h2g]

/-- C8 witness: the Widget sample with a same-package status member and a
metadata member. -/
theorem c8_dotype_metadata_witness :
    DoType sampleWidget2Decl =
      ({ name := "Widget", genClient := false, genDeepCopy := false, genUnversioned := true,
         fields := [
           { name := "Status", versionedPackage := "repo/apis/core/v1",
             unversionedImport := "", unversionedType := "WidgetStatus" },
           { name := "ObjectMeta", versionedPackage := "k8s.io/apimachinery/pkg/apis/meta/v1",
             unversionedImport := "metav1 \"k8s.io/apimachinery/pkg/apis/meta/v1\"",
             unversionedType := "metav1.ObjectMeta" } ] },
       [sampleStatusDesc]) :=
  c8_dotype_metadata sampleWidget2Decl
    { name := "Status", embedded := false, type := sampleStatusDesc }
    { name := "ObjectMeta", embedded := false, type := sampleMetaDesc }
    rfl rfl rfl rfl rfl rfl rfl rfl (by decide) (by decide) (by decide)

end ApiregisterGen
